import Mathlib

/-
Verification development for the node-ntag424 host-side session engine.

The TypeScript sources are shallowly embedded as executable Lean functions:
  * byte buffers become `List Nat` with every element `< 256`;
  * fallible code (functions that `throw`) becomes `Except String`;
  * the mutable tag-session (`commandCounter`, `authentication`) becomes
    explicit state passing over a `SessionState` value;
  * the AES-128 / AES-CMAC primitives that the sources take from node's
    `crypto` module and from `@nikeee/aes-cmac` are given as executable
    reference definitions (FIPS 197 / NIST SP 800-38B) so that the
    known-answer vectors of the specification can be checked by evaluation.

Layout: byte/list helpers, the AES-128 block cipher and its inversion
lemmas, AES-CMAC, the `crypto.ts` layer, `session.ts` and `validation.ts`,
the command dispatcher of `index.ts`, the configuration serializer, the
file-settings codec, and finally one theorem per claim.
-/

namespace NTag

/-! ### Byte-list helpers -/

/-- All entries of the list are bytes. -/
def IsBytes (l : List Nat) : Prop := ∀ b ∈ l, b < 256

instance : DecidablePred IsBytes := fun l =>
  inferInstanceAs (Decidable (∀ b ∈ l, b < 256))

/-- Three-byte little-endian encoding, as node's `Buffer.writeUIntLE(v, _, 3)`
stores it. -/
def u24le (v : Nat) : List Nat := [v % 256, v / 256 % 256, v / 65536 % 256]

/-- Little-endian value of the first `n` entries, as node's
`Buffer.readUIntLE` assembles it (missing bytes read as 0). -/
def leNat : Nat → List Nat → Nat
  | 0, _ => 0
  | _ + 1, [] => 0
  | n + 1, b :: rest => b + 256 * leNat n rest

/-- `buffer.ts` `rotateLeft`: shift all bytes left by one, wrapping. -/
def rotateLeft (l : List Nat) : List Nat := l.drop 1 ++ l.take 1

/-- `buffer.ts` `rotateRight`: last byte to the front. -/
def rotateRight (l : List Nat) : List Nat :=
  l.drop (l.length - 1) ++ l.take (l.length - 1)

/-- Byte-wise xor of two lists (`buffer.ts` `xor` without the length guard;
all uses below are on equal-length lists). -/
def xorW (a b : List Nat) : List Nat := List.zipWith (fun x y => x ^^^ y) a b

/-- Split a list into 16-byte blocks (last block may be short if the input
is not aligned; all callers check alignment first).  Written with an
explicit 16-deep pattern so that it reduces structurally. -/
def chunk16 : List Nat → List (List Nat)
  | [] => []
  | b1 :: b2 :: b3 :: b4 :: b5 :: b6 :: b7 :: b8 ::
    b9 :: b10 :: b11 :: b12 :: b13 :: b14 :: b15 :: b16 :: rest =>
    [b1, b2, b3, b4, b5, b6, b7, b8, b9, b10, b11, b12, b13, b14, b15, b16] ::
      chunk16 rest
  | short => [short]

/-! ### AES-128 block cipher (FIPS 197), reference model for node's
`crypto` AES and for the `@nikeee/aes-cmac` dependency.  The state is the
16-byte block in input order (column-major in FIPS terms: state byte
`s[r,c]` is list entry `r + 4*c`). -/

def sboxTable : List Nat := [
  99, 124, 119, 123, 242, 107, 111, 197, 48, 1, 103, 43, 254, 215, 171, 118,
  202, 130, 201, 125, 250, 89, 71, 240, 173, 212, 162, 175, 156, 164, 114, 192,
  183, 253, 147, 38, 54, 63, 247, 204, 52, 165, 229, 241, 113, 216, 49, 21,
  4, 199, 35, 195, 24, 150, 5, 154, 7, 18, 128, 226, 235, 39, 178, 117,
  9, 131, 44, 26, 27, 110, 90, 160, 82, 59, 214, 179, 41, 227, 47, 132,
  83, 209, 0, 237, 32, 252, 177, 91, 106, 203, 190, 57, 74, 76, 88, 207,
  208, 239, 170, 251, 67, 77, 51, 133, 69, 249, 2, 127, 80, 60, 159, 168,
  81, 163, 64, 143, 146, 157, 56, 245, 188, 182, 218, 33, 16, 255, 243, 210,
  205, 12, 19, 236, 95, 151, 68, 23, 196, 167, 126, 61, 100, 93, 25, 115,
  96, 129, 79, 220, 34, 42, 144, 136, 70, 238, 184, 20, 222, 94, 11, 219,
  224, 50, 58, 10, 73, 6, 36, 92, 194, 211, 172, 98, 145, 149, 228, 121,
  231, 200, 55, 109, 141, 213, 78, 169, 108, 86, 244, 234, 101, 122, 174, 8,
  186, 120, 37, 46, 28, 166, 180, 198, 232, 221, 116, 31, 75, 189, 139, 138,
  112, 62, 181, 102, 72, 3, 246, 14, 97, 53, 87, 185, 134, 193, 29, 158,
  225, 248, 152, 17, 105, 217, 142, 148, 155, 30, 135, 233, 206, 85, 40, 223,
  140, 161, 137, 13, 191, 230, 66, 104, 65, 153, 45, 15, 176, 84, 187, 22]

def invSboxTable : List Nat := [
  82, 9, 106, 213, 48, 54, 165, 56, 191, 64, 163, 158, 129, 243, 215, 251,
  124, 227, 57, 130, 155, 47, 255, 135, 52, 142, 67, 68, 196, 222, 233, 203,
  84, 123, 148, 50, 166, 194, 35, 61, 238, 76, 149, 11, 66, 250, 195, 78,
  8, 46, 161, 102, 40, 217, 36, 178, 118, 91, 162, 73, 109, 139, 209, 37,
  114, 248, 246, 100, 134, 104, 152, 22, 212, 164, 92, 204, 93, 101, 182, 146,
  108, 112, 72, 80, 253, 237, 185, 218, 94, 21, 70, 87, 167, 141, 157, 132,
  144, 216, 171, 0, 140, 188, 211, 10, 247, 228, 88, 5, 184, 179, 69, 6,
  208, 44, 30, 143, 202, 63, 15, 2, 193, 175, 189, 3, 1, 19, 138, 107,
  58, 145, 17, 65, 79, 103, 220, 234, 151, 242, 207, 206, 240, 180, 230, 115,
  150, 172, 116, 34, 231, 173, 53, 133, 226, 249, 55, 232, 28, 117, 223, 110,
  71, 241, 26, 113, 29, 41, 197, 137, 111, 183, 98, 14, 170, 24, 190, 27,
  252, 86, 62, 75, 198, 210, 121, 32, 154, 219, 192, 254, 120, 205, 90, 244,
  31, 221, 168, 51, 136, 7, 199, 49, 177, 18, 16, 89, 39, 128, 236, 95,
  96, 81, 127, 169, 25, 181, 74, 13, 45, 229, 122, 159, 147, 201, 156, 239,
  160, 224, 59, 77, 174, 42, 245, 176, 200, 235, 187, 60, 131, 83, 153, 97,
  23, 43, 4, 126, 186, 119, 214, 38, 225, 105, 20, 99, 85, 33, 12, 125]

def sboxAt (b : Nat) : Nat := sboxTable.getD b 0

def invSboxAt (b : Nat) : Nat := invSboxTable.getD b 0

/-- Multiplication by x in GF(2^8) mod the AES polynomial. -/
def xtime (b : Nat) : Nat := if b < 128 then 2 * b else (2 * b ^^^ 0x1b) % 256

def gm2 (b : Nat) : Nat := xtime b

def gm3 (b : Nat) : Nat := xtime b ^^^ b

def gm9 (b : Nat) : Nat := xtime (xtime (xtime b)) ^^^ b

def gm11 (b : Nat) : Nat := xtime (xtime (xtime b)) ^^^ xtime b ^^^ b

def gm13 (b : Nat) : Nat := xtime (xtime (xtime b)) ^^^ xtime (xtime b) ^^^ b

def gm14 (b : Nat) : Nat := xtime (xtime (xtime b)) ^^^ xtime (xtime b) ^^^ xtime b

def subBytesL (s : List Nat) : List Nat := s.map sboxAt

def invSubBytesL (s : List Nat) : List Nat := s.map invSboxAt

def shiftRowsL (s : List Nat) : List Nat :=
  match s with
  | [a0, a1, a2, a3, a4, a5, a6, a7, a8, a9, a10, a11, a12, a13, a14, a15] =>
    [a0, a5, a10, a15, a4, a9, a14, a3, a8, a13, a2, a7, a12, a1, a6, a11]
  | other => other

def invShiftRowsL (s : List Nat) : List Nat :=
  match s with
  | [a0, a1, a2, a3, a4, a5, a6, a7, a8, a9, a10, a11, a12, a13, a14, a15] =>
    [a0, a13, a10, a7, a4, a1, a14, a11, a8, a5, a2, a15, a12, a9, a6, a3]
  | other => other

def mixColsL : List Nat → List Nat
  | a :: b :: c :: d :: rest =>
    (gm2 a ^^^ gm3 b ^^^ c ^^^ d) ::
    (a ^^^ gm2 b ^^^ gm3 c ^^^ d) ::
    (a ^^^ b ^^^ gm2 c ^^^ gm3 d) ::
    (gm3 a ^^^ b ^^^ c ^^^ gm2 d) :: mixColsL rest
  | other => other

def invMixColsL : List Nat → List Nat
  | a :: b :: c :: d :: rest =>
    (gm14 a ^^^ gm11 b ^^^ gm13 c ^^^ gm9 d) ::
    (gm9 a ^^^ gm14 b ^^^ gm11 c ^^^ gm13 d) ::
    (gm13 a ^^^ gm9 b ^^^ gm14 c ^^^ gm11 d) ::
    (gm11 a ^^^ gm13 b ^^^ gm9 c ^^^ gm14 d) :: invMixColsL rest
  | other => other

def addRK (s k : List Nat) : List Nat := xorW s k

def rconList : List Nat := [1, 2, 4, 8, 16, 32, 64, 128, 0x1b, 0x36]

/-- One round-key step of the AES-128 key schedule: from round key `rk`
(16 bytes) and round constant `rc` produce the next round key. -/
def nextRoundKey (rc : Nat) (rk : List Nat) : List Nat :=
  let w0 := rk.take 4
  let w1 := (rk.drop 4).take 4
  let w2 := (rk.drop 8).take 4
  let w3 := rk.drop 12
  let t := (rotateLeft w3).map sboxAt
  let t0 := xorW t [rc, 0, 0, 0]
  let u0 := xorW w0 t0
  let u1 := xorW w1 u0
  let u2 := xorW w2 u1
  let u3 := xorW w3 u2
  u0 ++ u1 ++ u2 ++ u3

def roundKeysGo : List Nat → List Nat → List (List Nat)
  | [], _ => []
  | rc :: rest, rk =>
    let nk := nextRoundKey rc rk
    nk :: roundKeysGo rest nk

/-- The eleven AES-128 round keys. -/
def roundKeys (key : List Nat) : List (List Nat) := key :: roundKeysGo rconList key

/-- One inner AES encryption round. -/
def encRound (k s : List Nat) : List Nat := addRK (mixColsL (shiftRowsL (subBytesL s))) k

/-- Inverse of one inner AES encryption round. -/
def decRound (k s : List Nat) : List Nat :=
  invSubBytesL (invShiftRowsL (invMixColsL (addRK s k)))

/-- AES-128 block encryption with a precomputed key schedule. -/
def encBlockK (rks : List (List Nat)) (b : List Nat) : List Nat :=
  addRK (shiftRowsL (subBytesL
    (((rks.drop 1).take 9).foldl (fun s k => encRound k s) (addRK b (rks.getD 0 [])))))
    (rks.getD 10 [])

/-- AES-128 block decryption with a precomputed key schedule (the
mathematical inverse of `encBlockK`, applying the inverse rounds in
reverse order). -/
def decBlockK (rks : List (List Nat)) (c : List Nat) : List Nat :=
  addRK ((((rks.drop 1).take 9).reverse).foldl (fun s k => decRound k s)
    (invSubBytesL (invShiftRowsL (addRK c (rks.getD 10 [])))))
    (rks.getD 0 [])

def encBlock (key b : List Nat) : List Nat := encBlockK (roundKeys key) b

def decBlock (key c : List Nat) : List Nat := decBlockK (roundKeys key) c

/-! ### State-operation inversion and preservation lemmas -/

/-- A well-formed AES state or round key: 16 bytes. -/
def GoodB (l : List Nat) : Prop := l.length = 16 ∧ IsBytes l

/-! ### AES-CMAC (NIST SP 800-38B), reference model for `@nikeee/aes-cmac` -/

/-- Big-endian value of a byte list. -/
def beNat (l : List Nat) : Nat := l.foldl (fun a b => a * 256 + b) 0

/-- Big-endian byte list of fixed width. -/
def natToBE : Nat → Nat → List Nat
  | 0, _ => []
  | w + 1, n => natToBE w (n / 256) ++ [n % 256]

/-- CMAC subkey doubling: left shift of the 128-bit value with conditional
xor of the constant Rb = 0x87. -/
def cmacDbl (b : List Nat) : List Nat :=
  let n := beNat b * 2
  natToBE 16 (if n < 2 ^ 128 then n else (n % 2 ^ 128) ^^^ 0x87)

/-- CBC-MAC chaining of complete 16-byte blocks (the message fed to it is
always a multiple of 16 bytes long). -/
def macBlocks (key : List Nat) (acc : List Nat) : List Nat → List Nat
  | [] => acc
  | b1 :: b2 :: b3 :: b4 :: b5 :: b6 :: b7 :: b8 ::
    b9 :: b10 :: b11 :: b12 :: b13 :: b14 :: b15 :: b16 :: rest =>
    macBlocks key (encBlock key (xorW acc
      [b1, b2, b3, b4, b5, b6, b7, b8, b9, b10, b11, b12, b13, b14, b15, b16])) rest
  | short => encBlock key (xorW acc short)

/-- AES-CMAC of an arbitrary-length message. -/
def cmac (key msg : List Nat) : List Nat :=
  let k1 := cmacDbl (encBlock key (List.replicate 16 0))
  let k2 := cmacDbl k1
  let blocks :=
    if msg ≠ [] ∧ msg.length % 16 = 0 then
      msg.take (msg.length - 16) ++ xorW (msg.drop (msg.length - 16)) k1
    else
      let padded := msg ++ 0x80 :: List.replicate (15 - msg.length % 16) 0
      padded.take (padded.length - 16) ++ xorW (padded.drop (padded.length - 16)) k2
  macBlocks key (List.replicate 16 0) blocks

/-! ### `crypto.ts` -/

/-- `crypto.ts` `reduceMac`: the bytes at odd indices, into an 8-byte
buffer initialised to zero (positions beyond the input read as 0, and
writes past index 7 in the source are silently ignored by node). -/
def reduceMac (mac : List Nat) : List Nat :=
  (List.range 8).map fun j => mac.getD (2 * j + 1) 0

def createEmptyIv : List Nat := List.replicate 16 0

/-- CBC encryption of a list of complete blocks. -/
def cbcEncBlocks (key : List Nat) : List Nat → List (List Nat) → List (List Nat)
  | _, [] => []
  | iv, b :: bs =>
    let c := encBlock key (xorW iv b)
    c :: cbcEncBlocks key c bs

/-- CBC decryption of a list of complete blocks. -/
def cbcDecBlocks (key : List Nat) : List Nat → List (List Nat) → List (List Nat)
  | _, [] => []
  | iv, c :: cs => xorW (decBlock key c) iv :: cbcDecBlocks key c cs

def notMultipleMsg : String := "data is not a multiple of blockSize long."

def noPaddingMsg : String := "Could not find any padding"

def notAlignedNoPadMsg : String :=
  "dataToEncrypt is not a multiple of the block length and there is no padding to be applied. This can not happen."

/-- Index of the last occurrence of 0x80, as `Buffer.lastIndexOf(0x80)`. -/
def lastIndexOf80 : List Nat → Option Nat
  | [] => none
  | a :: rest =>
    match lastIndexOf80 rest with
    | some i => some (i + 1)
    | none => if a = 0x80 then some 0 else none

/-- `crypto.ts` `decryptCbc`. -/
def decryptCbc (key data iv : List Nat) (removePadding : Bool) :
    Except String (List Nat) :=
  if data.length % 16 ≠ 0 then .error notMultipleMsg
  else
    let plaintextWithPadding := (cbcDecBlocks key iv (chunk16 data)).flatten
    if removePadding then
      match lastIndexOf80 plaintextWithPadding with
      | none => .error noPaddingMsg
      | some paddingStart => .ok (plaintextWithPadding.take paddingStart)
    else .ok plaintextWithPadding

/-- `crypto.ts` `encryptCbc`. -/
def encryptCbc (key data iv : List Nat) (addPadding : Bool) :
    Except String (List Nat) :=
  if addPadding then
    let dataToPad := data ++ [0x80]
    let paddingLength := 16 - dataToPad.length % 16
    let dataToEncrypt :=
      if paddingLength = 16 then dataToPad
      else dataToPad ++ List.replicate paddingLength 0
    .ok (cbcEncBlocks key iv (chunk16 dataToEncrypt)).flatten
  else if data.length % 16 ≠ 0 then .error notAlignedNoPadMsg
  else .ok (cbcEncBlocks key iv (chunk16 data)).flatten

/-- `crypto.ts` `encryptEcb`. -/
def encryptEcb (key data : List Nat) : Except String (List Nat) :=
  if data.length % 16 ≠ 0 then .error notMultipleMsg
  else .ok ((chunk16 data).map (encBlock key)).flatten

/-- `crypto.ts` `calcSessionKeys` (per AN12196 section 6.6.2). -/
def calcSessionKeys (key RndA RndB : List Nat) : List Nat × List Nat :=
  let x6 := (List.range 6).map fun i => RndA.getD (2 + i) 0 ^^^ RndB.getD i 0
  let sv1 := [0xa5, 0x5a, 0x00, 0x01, 0x00, 0x80] ++
    RndA.take 2 ++ x6 ++ RndB.drop 6 ++ RndA.drop 8
  let sv2 := [0x5a, 0xa5, 0x00, 0x01, 0x00, 0x80] ++
    RndA.take 2 ++ x6 ++ RndB.drop 6 ++ RndA.drop 8
  (cmac key sv1, cmac key sv2)

/-! ### `validation.ts` -/

/-- Little-endian read of `len` bytes at `off`, with node's
`Buffer.readUIntLE` bounds check. -/
def readUIntLE (l : List Nat) (off len : Nat) : Except String Nat :=
  if off + len ≤ l.length then .ok (leNat len (l.drop off))
  else .error "readUIntLE out of range"

def sessionVectorTooLongMsg : String :=
  "Session vectors with multiple block size not supported yet."

/-- `validation.ts` `createSessionVector`.  The `if (counter)` in the source
is JavaScript truthiness: a counter of 0 (and an absent counter) skips the
write.  `console.assert` in the source does not throw and is omitted.
Node's `writeUIntLE` rejects values of 2^24 and above. -/
def createSessionVector (pfx : List Nat) (uid : Option (List Nat))
    (counter : Option Nat) : Except String (List Nat) :=
  if 16 < pfx.length + (uid.getD []).length + 3 then
    .error sessionVectorTooLongMsg
  else
    let base := pfx ++ uid.getD []
    match counter with
    | some c =>
      if c ≠ 0 then
        if c < 16777216 then
          let w := base ++ u24le c
          .ok (w ++ List.replicate (16 - w.length) 0)
        else .error "writeUIntLE out of range"
      else .ok (base ++ List.replicate (16 - base.length) 0)
    | none => .ok (base ++ List.replicate (16 - base.length) 0)

/-- `validation.ts` `validatePlainPiccMac`. -/
def validatePlainPiccMac (fileReadKey : List Nat) (uid : Option (List Nat))
    (counter : Option Nat) (signatureMac : List Nat) : Except String Bool := do
  let sv2 ← createSessionVector [0x3c, 0xc3, 0x00, 0x01, 0x00, 0x80] uid counter
  let SesSDMFileReadMAC := cmac fileReadKey sv2
  let expectedMac := cmac SesSDMFileReadMAC []
  return reduceMac expectedMac == signatureMac

/-- Decrypted PICC data: optional UID and optional read counter. -/
structure DecryptedPiccData where
  uid : Option (List Nat)
  counter : Option Nat
deriving DecidableEq, Repr

/-- `validation.ts` `validateAndDecryptPicc`. -/
def validateAndDecryptPicc (decryptionKey macKey encryptedPicc signatureMac :
    List Nat) : Except String (Option DecryptedPiccData) := do
  let decrypted ← decryptCbc decryptionKey encryptedPicc createEmptyIv false
  let tag := decrypted.getD 0 0
  let hasUid := tag &&& 128 != 0
  let uid := if hasUid then some ((decrypted.drop 1).take 7) else none
  let index := if hasUid then 8 else 1
  let hasCounter := tag &&& 64 != 0
  let counter ← if hasCounter then
      (readUIntLE decrypted index 3).map some
    else .ok none
  let isValid ← validatePlainPiccMac macKey uid counter signatureMac
  return if isValid then some ⟨uid, counter⟩ else none

/-! ### `crypto/session.ts` -/

/-- The installed authentication state (`EncryptionParams` in the source). -/
structure EncryptionParams where
  TI : List Nat
  sessionEncryptionKey : List Nat
  sessionMacKey : List Nat
deriving DecidableEq, Repr

def authMismatchMsg : String := "error in match rndA random bytes"

/-- `session.ts` `deriveSessionKeys`. -/
def deriveSessionKeys (key ecRndAp rndA rndB : List Nat) :
    Except String EncryptionParams := do
  let TiRndAPDcap2PCDcap2 ← decryptCbc key ecRndAp createEmptyIv false
  let TI := TiRndAPDcap2PCDcap2.take 4
  let rndAp := (TiRndAPDcap2PCDcap2.drop 4).take 16
  let rndA2 := rotateRight rndAp
  if rndA ≠ rndA2 then
    .error authMismatchMsg
  else
    let keys := calcSessionKeys key rndA rndB
    return ⟨TI, keys.1, keys.2⟩

/-! ### `response.ts` -/

/-- The two raw status bytes (`ResponseStatus` keeps a 2-byte buffer). -/
structure RespStatus where
  status1 : Nat
  status2 : Nat
deriving DecidableEq, Repr

/-- `ResponseStatus.isOk`, written as in the source. -/
def RespStatus.isOk (st : RespStatus) : Bool :=
  if (st.status1 ≠ 0x90 && st.status1 ≠ 0x91) ||
      (st.status2 ≠ 0x00 && st.status2 ≠ 0xaf) then
    false
  else
    true

/-- `CommandResponse`: status bytes plus the payload preceding them. -/
structure CommandResponse where
  status : RespStatus
  data : Option (List Nat)
deriving DecidableEq, Repr

def CommandResponse.isError (r : CommandResponse) : Bool := !r.status.isOk

def malformedResponseMsg : String := "Got malformed response."

def cardErrorMsg : String := "Some error happened"

def noDataMsg : String := "Expected to have data, but there was none"

/-- `CommandResponse.getDataOrThrow`. -/
def CommandResponse.getDataOrThrow (r : CommandResponse) :
    Except String (List Nat) :=
  if r.isError then .error cardErrorMsg
  else
    match r.data with
    | none => .error noDataMsg
    | some d => .ok d

/-! ### The command dispatcher of `index.ts`.

The reader port is external: a command exchange is modelled by the raw
bytes the reader returns, `raw : Except Unit (List Nat)`, where
`.error ()` stands for a transport failure (`reader.transmit` throwing).
`sendIsoCommand`/`sendNativeCommand` turn the raw response into a
`CommandResponse` and touch no session state. -/

/-- The mutable per-session state of `createTagSession`. -/
structure SessionState where
  commandCounter : Nat
  authentication : Option EncryptionParams
deriving DecidableEq, Repr

def transportErrorMsg : String := "transmit failed"

def writeU16OutOfRangeMsg : String := "writeUInt16LE value out of range"

def responseMacMismatchMsg : String :=
  "Expected response MAC and actual response MAC did not match."

def notAuthenticatedMsg : String := "You should not be able to do this"

/-- `sendIsoCommand` (and `sendNativeCommand`, which only concatenates the
payload buffers): split the trailing two status bytes from the payload.
Does not affect the command counter. -/
def sendIsoCommand (raw : Except Unit (List Nat)) :
    Except String CommandResponse :=
  match raw with
  | .error _ => .error transportErrorMsg
  | .ok response =>
    if response.length < 2 then .error malformedResponseMsg
    else
      .ok ⟨⟨response.getD (response.length - 2) 0, response.getD (response.length - 1) 0⟩,
        if response.length > 2 then some (response.take (response.length - 2)) else none⟩

/-- `sendPlainCommand`: `++commandCounter` happens before the native send,
so the counter is incremented even when the transport throws. -/
def sendPlainCommand (st : SessionState) (raw : Except Unit (List Nat)) :
    Except String CommandResponse × SessionState :=
  (sendIsoCommand raw, { st with commandCounter := st.commandCounter + 1 })

/-- The request-MAC input
`[command, LSB(counter), MSB(counter), TI, header, data]` — built in the
source with `Buffer.of(command, 0, 0, ...)` followed by
`writeUInt16LE(counter, 1)` (node rejects counters of 2^16 and above). -/
def macInput (command counter : Nat) (ti rest : List Nat) : List Nat :=
  command :: counter % 256 :: counter / 256 % 256 :: (ti ++ rest)

/-- `sendWithMac`.  Returns the response (or the error thrown) together
with the updated session state. -/
def sendWithMac (st : SessionState) (command : Nat) (header : List Nat)
    (data : Option (List Nat)) (raw : Except Unit (List Nat)) :
    Except String CommandResponse × SessionState :=
  match st.authentication with
  | none => sendPlainCommand st raw
  | some auth =>
    if 65536 ≤ st.commandCounter then (.error writeU16OutOfRangeMsg, st)
    else
      let macIn := macInput command st.commandCounter auth.TI (header ++ data.getD [])
      -- the request MAC, appended to the transmitted frame (the reader
      -- response is modelled by `raw`, so it is not consumed further here)
      let _macData := reduceMac (cmac auth.sessionMacKey macIn)
      match sendIsoCommand raw with
      | .error e => (.error e, st)
      | .ok macedResult =>
        let st2 := { st with commandCounter := st.commandCounter + 1 }
        if macedResult.isError then (.ok macedResult, st2)
        else
          match macedResult.data with
          | none => (.ok ⟨macedResult.status, none⟩, st2)
          | some macedPayload =>
            let actualResponseMac := macedPayload.drop (macedPayload.length - 8)
            let responseData := macedPayload.take (macedPayload.length - 8)
            if 65536 ≤ st2.commandCounter then (.error writeU16OutOfRangeMsg, st2)
            else
              let resultMacInput :=
                macInput macedResult.status.status2 st2.commandCounter auth.TI responseData
              let expectedResponseMac := reduceMac (cmac auth.sessionMacKey resultMacInput)
              if expectedResponseMac ≠ actualResponseMac then
                (.error responseMacMismatchMsg, st2)
              else (.ok ⟨macedResult.status, some responseData⟩, st2)

/-- Pad or truncate the transaction identifier to 4 bytes, as the
`TI.copy(ivInput, 2, 0)` into a zeroed buffer does. -/
def tiTo4 (ti : List Nat) : List Nat := ti.take 4 ++ List.replicate (4 - ti.length) 0

/-- `encryptData` (section 9.1.4 of the data sheet): derive the command IV
and CBC-encrypt with ISO 9797-1 M/2 padding. -/
def encryptData (params : EncryptionParams) (commandCounter : Nat)
    (data : List Nat) : Except String (List Nat) := do
  if 65536 ≤ commandCounter then .error writeU16OutOfRangeMsg
  else
    let ivInput := [0xa5, 0x5a] ++ tiTo4 params.TI ++
      [commandCounter % 256, commandCounter / 256 % 256] ++ List.replicate 8 0
    let iv ← encryptEcb params.sessionEncryptionKey ivInput
    encryptCbc params.sessionEncryptionKey data iv true

/-- `decryptData`: the response IV uses the prefix `5A A5` and the counter
value after the increment performed inside `sendWithMac`. -/
def decryptData (params : EncryptionParams) (commandCounter : Nat)
    (data : List Nat) : Except String (List Nat) := do
  if 65536 ≤ commandCounter then .error writeU16OutOfRangeMsg
  else
    let ivInput := [0x5a, 0xa5] ++ tiTo4 params.TI ++
      [commandCounter % 256, commandCounter / 256 % 256] ++ List.replicate 8 0
    let iv ← encryptEcb params.sessionEncryptionKey ivInput
    decryptCbc params.sessionEncryptionKey data iv true

/-- `sendEncrypted` (CommMode Full). -/
def sendEncrypted (st : SessionState) (command : Nat) (header : List Nat)
    (data : Option (List Nat)) (raw : Except Unit (List Nat)) :
    Except String CommandResponse × SessionState :=
  match st.authentication with
  | none => (.error notAuthenticatedMsg, st)
  | some auth =>
    let encOut : Except String (Option (List Nat)) :=
      match data with
      | some d =>
        if d.length > 0 then (encryptData auth st.commandCounter d).map some
        else .ok (some d)
      | none => .ok none
    match encOut with
    | .error e => (.error e, st)
    | .ok encryptedData =>
      match sendWithMac st command header encryptedData raw with
      | (.error e, st2) => (.error e, st2)
      | (.ok result, st2) =>
        if result.isError ∨ result.data = none ∨ result.data = some [] then
          (.ok ⟨result.status, none⟩, st2)
        else
          match result.data with
          | none => (.ok ⟨result.status, none⟩, st2)
          | some payload =>
            match decryptData auth st2.commandCounter payload with
            | .error e => (.error e, st2)
            | .ok decrypted => (.ok ⟨result.status, some decrypted⟩, st2)

/-! ### `authenticate` (AuthenticateEV2First, `index.ts`)

`authStep1` and `authStep2` go through `sendNativeCommand`, which never
touches the command counter.  `raw1` and `raw2` are the reader's raw
responses to the two APDUs; `rndA` stands for the host's 16 random bytes. -/

/-- The pure part of `authenticate`: run both exchanges and derive the new
session keys.  Any failure surfaces as `.error`. -/
def authenticateSteps (key : List Nat) (raw1 raw2 : Except Unit (List Nat))
    (rndA : List Nat) : Except String EncryptionParams := do
  let step1 ← sendIsoCommand raw1
  let ecRndB ← step1.getDataOrThrow
  let rndB ← decryptCbc key ecRndB createEmptyIv false
  let rndBp := rotateLeft rndB
  let _message ← encryptCbc key (rndA ++ rndBp) createEmptyIv false
  let step2 ← sendIsoCommand raw2
  let ecRndAp ← step2.getDataOrThrow
  deriveSessionKeys key ecRndAp rndA rndB

/-- `authenticate`: on success the commandCounter is reset to 0 and the new
session installed; the two assignments are the last statements of the
source function, so on any thrown error the state is left untouched. -/
def authenticate (st : SessionState) (key : List Nat)
    (raw1 raw2 : Except Unit (List Nat)) (rndA : List Nat) :
    Except String Unit × SessionState :=
  match authenticateSteps key raw1 raw2 rndA with
  | .error e => (.error e, st)
  | .ok newAuthentication => (.ok (), ⟨0, some newAuthentication⟩)

/-! ### `serializer/configuration.ts` -/

/-- `ConfigurationUpdate` as a tagged sum, mirroring the TypeScript union.
Numeric fields keep their `number` type as `Nat` (the bug exhibited below
is already present on natural-number inputs). -/
inductive ConfigurationUpdate where
  | picc (useRandomId : Bool)
  | sdm (disableChainedWriteData : Bool)
  | capability (enableLrp : Bool) (pdCap2_5 pdCap2_6 : Nat)
  | authFailCounter (enableFailedCounter : Bool)
      (totalFailCounterLimit totalFailCounterDecrement : Nat)
  | hardware (backModulationStrong : Bool)
deriving DecidableEq, Repr

def useRandomIdMsg : String := "useRandomId can only be set to true"

def failCounterLimitMsg : String := "totalFailCounterLimit has an invalid value"

def failCounterDecrementMsg : String :=
  "totalFailCounterDecrement has an invalid value"

/-- `serializeConfigurationUpdate`.  The `authFailCounter` enabled branch
reproduces the source conditions verbatim:
`0 <= totalFailCounterLimit || totalFailCounterLimit < 0xffff` (and the
same for the decrement) throws. -/
def serializeConfigurationUpdate (config : ConfigurationUpdate) :
    Except String (Nat × List Nat) :=
  match config with
  | .picc useRandomId =>
    if !useRandomId then .error useRandomIdMsg
    else .ok (0x00, [2])
  | .sdm disableChainedWriteData =>
    .ok (0x04, [0, if disableChainedWriteData then 4 else 0])
  | .capability enableLrp pdCap2_5 pdCap2_6 =>
    .ok (0x05, [0x00, 0x00, 0x00, 0x00, if enableLrp then 2 else 0,
      0x00, 0x00, 0x00, pdCap2_5, pdCap2_6])
  | .authFailCounter enableFailedCounter limit decrement =>
    if enableFailedCounter then
      if 0 ≤ limit ∨ limit < 0xffff then .error failCounterLimitMsg
      else if 0 ≤ decrement ∨ decrement < 0xffff then .error failCounterDecrementMsg
      else .ok (0x0a, [1, limit % 256, limit / 256 % 256,
        decrement % 256, decrement / 256 % 256])
    else .ok (0x0a, [0x00, 0x00, 0x00, 0x00, 0x00])
  | .hardware backModulationStrong =>
    .ok (0x0b, [if backModulationStrong then 1 else 0])

/-! ### `serializer/fileSettings.ts`

Option fields keep their `number | null` type as `Option Nat`.  The
`encodingMode` field has `"ascii"` as its only permitted value in the
TypeScript type and is omitted from the Lean structures.  The upper bounds
that the source computes with JavaScript subtraction (for example
`fileSize - encodedUidLength`) are modelled with truncated `Nat`
subtraction: for natural inputs both make the same comparisons succeed,
since a negative JavaScript bound rejects every candidate exactly as the
truncated bound 0 does. -/

structure SDMAccessRightsV where
  metaRead : Nat
  fileRead : Nat
  counterRetrieval : Nat
deriving DecidableEq, Repr

structure EncryptedFileDataV where
  offset : Nat
  length : Nat
deriving DecidableEq, Repr

structure SdmOptionsV where
  uidOffset : Option Nat
  readCounterOffset : Option Nat
  piccDataOffset : Option Nat
  macInputOffset : Option Nat
  macOffset : Option Nat
  encryptedFileData : Option EncryptedFileDataV
  readCounterLimit : Option Nat
  accessRights : SDMAccessRightsV
deriving DecidableEq, Repr

inductive CommMode where
  | plain
  | mac
  | full
deriving DecidableEq, Repr

/-- `commMode.ts` `commModes`: the 2-bit wire encoding. -/
def commModes : CommMode → Nat
  | .plain => 0
  | .mac => 1
  | .full => 3

/-- `commMode.ts` `commModeLookup`: JavaScript object lookup, `none` for
the unmapped encoding `0b10` (and anything else). -/
def commModeLookup (v : Nat) : Option CommMode :=
  if v = 0 then some .plain
  else if v = 1 then some .mac
  else if v = 3 then some .full
  else none

structure FileAccessRightsV where
  read : Nat
  write : Nat
  readWrite : Nat
  change : Nat
deriving DecidableEq, Repr

structure FileSettingsV where
  sdmOptions : Option SdmOptionsV
  commMode : CommMode
  access : FileAccessRightsV
deriving DecidableEq, Repr

structure TagParamsV where
  fileSize : Nat
  encodedUidLength : Nat
  encodedReadCounterLength : Nat
  piccDataLength : Nat
deriving DecidableEq, Repr

/-- `GetFileSettings` as parsed.  The `commMode` is an `Option` because the
source's `commModeLookup[(fileOption & 0b11)]` silently yields `undefined`
for the encoding `0b10`. -/
structure GetFileSettingsV where
  fileType : Nat
  accessRights : FileAccessRightsV
  fileSize : Nat
  commMode : Option CommMode
  sdmOptions : Option SdmOptionsV
deriving DecidableEq, Repr

def ensureInclusive (lower value upper : Nat) (msg : String) : Except String Unit :=
  if lower ≤ value ∧ value ≤ upper then .ok () else .error msg

def ensureExclusive (lower value upper : Nat) (msg : String) : Except String Unit :=
  if lower ≤ value ∧ value < upper then .ok () else .error msg

def ensureFullExclusive (lower value upper : Nat) (msg : String) : Except String Unit :=
  if lower < value ∧ value < upper then .ok () else .error msg

/-- A 3-byte `writeUIntLE`, including node's range check. -/
def w24 (v : Nat) : Except String (List Nat) :=
  if v < 16777216 then .ok (u24le v) else .error "writeUIntLE out of range"

/-- A `writeUint8`, including node's range check (reachable only through
out-of-range SDM access-rights fields). -/
def w8 (v : Nat) : Except String Nat :=
  if v < 256 then .ok v else .error "writeUint8 out of range"

def piccRequiredMsg : String :=
  "piccDataOffset must be set when accessRights.metaRead is a key id."

def piccForbiddenMsg : String :=
  "piccDataOffset cannot be set when accessRights.metaRead is not a key id."

def macInputRequiredMsg : String :=
  "sdmOptions.macInputOffset must be set if accessRights.fileRead is not 0xf."

def macOffsetRequiredMsg : String :=
  "sdmOptions.macOffset must be set if accessRights.fileRead is not 0xf."

def uidOffsetRangeMsg : String := "sdmOptions.uidOffset out of range"

def readCounterOffsetRangeMsg : String := "sdmOptions.readCounterOffset out of range"

def piccDataOffsetRangeMsg : String := "sdmOptions.piccDataOffset out of range"

def macInputOffsetRangeMsg : String := "sdmOptions.macInputOffset out of range"

def encOffsetRangeMsg : String := "sdmOptions.encryptedFileData.offset out of range"

def encLengthRangeMsg : String := "sdmOptions.encryptedFileData.length out of range"

def encLengthMultipleMsg : String :=
  "sdmOptions.encryptedFileData.length must be a multiple of 32."

def macOffsetRangeMsg : String := "sdmOptions.macOffset out of range"

/-- The `metaRead`-gated segment of `serializeForChangeFileSettings`
(`uidOffset`/`readCounterOffset` bytes when `metaRead = 0xe`, the
`piccDataOffset` bytes when `metaRead` is a key id). -/
def serializeSdmMeta (so : SdmOptionsV) (tagParams : TagParamsV) :
    Except String (List Nat) :=
  if so.accessRights.metaRead = 0xe then do
    let uidSeg ← match so.uidOffset with
      | some uo => do
        ensureExclusive 0 uo (tagParams.fileSize - tagParams.encodedUidLength)
          uidOffsetRangeMsg
        w24 uo
      | none => .ok []
    let rcSeg ← match so.readCounterOffset with
      | some rco => do
        ensureExclusive 0 rco (tagParams.fileSize - tagParams.encodedReadCounterLength)
          readCounterOffsetRangeMsg
        w24 rco
      | none => .ok []
    .ok (uidSeg ++ rcSeg)
  else if so.accessRights.metaRead ≠ 0xf then
    match so.piccDataOffset with
    | none => .error piccRequiredMsg
    | some po => do
      ensureExclusive 0 po (tagParams.fileSize - tagParams.piccDataLength)
        piccDataOffsetRangeMsg
      w24 po
  else if so.piccDataOffset.isSome then .error piccForbiddenMsg
  else .ok []

/-- The `fileRead`-gated MAC segment of `serializeForChangeFileSettings`
(`macInputOffset`, optional encrypted-file-data bytes, `macOffset`). -/
def serializeSdmMac (so : SdmOptionsV) (tagParams : TagParamsV) :
    Except String (List Nat) :=
  if so.accessRights.fileRead ≠ 0xf then
    match so.macInputOffset with
    | none => .error macInputRequiredMsg
    | some mio =>
      match so.macOffset with
      | none => .error macOffsetRequiredMsg
      | some mo => do
        ensureInclusive 0 mio mo macInputOffsetRangeMsg
        let mioSeg ← w24 mio
        let encSeg ←
          match so.encryptedFileData with
          | some efd => do
            ensureExclusive mio efd.offset (mo - 32) encOffsetRangeMsg
            ensureExclusive 32 efd.length (mo - efd.offset) encLengthRangeMsg
            if efd.length % 32 ≠ 0 then .error encLengthMultipleMsg
            else do
              let offSeg ← w24 efd.offset
              let lenSeg ← w24 efd.length
              .ok (offSeg ++ lenSeg)
          | none => .ok []
        match so.encryptedFileData with
        | none =>
          ensureExclusive mio mo (tagParams.fileSize - 16) macOffsetRangeMsg
        | some efd =>
          ensureFullExclusive (efd.offset + efd.length) mo
            (tagParams.fileSize - 16) macOffsetRangeMsg
        let moSeg ← w24 mo
        .ok (mioSeg ++ encSeg ++ moSeg)
  else .ok []

/-- The trailing `readCounterLimit` bytes of
`serializeForChangeFileSettings`. -/
def serializeSdmLimit (so : SdmOptionsV) : Except String (List Nat) :=
  match so.readCounterLimit with
  | some lim => w24 lim
  | none => .ok []

/-- The SDM half of `serializeForChangeFileSettings` (everything the
source writes once `sdmOptions !== null`). -/
def serializeSdmSection (so : SdmOptionsV) (tagParams : TagParamsV) :
    Except String (List Nat) := do
    let intSdmOptions :=
      (if so.uidOffset.isSome then 128 else 0) |||
      (if so.readCounterOffset.isSome then 64 else 0) |||
      (if so.readCounterLimit.isSome then 32 else 0) |||
      (if so.encryptedFileData.isSome then 16 else 0) ||| 1
    let arLow ← w8 (0xf0 ||| so.accessRights.counterRetrieval)
    let arHigh ← w8 ((so.accessRights.metaRead <<< 4) ||| so.accessRights.fileRead)
    let metaSeg ← serializeSdmMeta so tagParams
    let macSeg ← serializeSdmMac so tagParams
    let limitSeg ← serializeSdmLimit so
    return [intSdmOptions, arLow, arHigh] ++ metaSeg ++ macSeg ++ limitSeg

/-- `serializeForChangeFileSettings`.  The source writes sequentially into
a 1000-byte scratch buffer and returns the written prefix; the embedding
concatenates the written segments in the same order (the total never
reaches 1000 bytes). -/
def serializeForChangeFileSettings (fs : FileSettingsV) (tagParams : TagParamsV) :
    Except String (List Nat) := do
  let fileOption := (if fs.sdmOptions.isSome then 64 else 0) ||| commModes fs.commMode
  let accessPart1 := ((fs.access.readWrite &&& 0xf) <<< 4) ||| ((fs.access.change &&& 0xf) <<< 0)
  let accessPart2 := ((fs.access.read &&& 0xf) <<< 4) ||| ((fs.access.write &&& 0xf) <<< 0)
  match fs.sdmOptions with
  | none => return [fileOption, accessPart1, accessPart2]
  | some so => do
    let sdmSeg ← serializeSdmSection so tagParams
    return [fileOption, accessPart1, accessPart2] ++ sdmSeg

def unsupportedFileTypeMsg : String := "Unsupported fileType"

def unsupportedEncodingMsg : String := "Unsupported encoding"

def trailingBytesMsg : String :=
  "Did not consume entire buffer input. Something is wrong with the buffer."

/-- Read one byte and advance; node's `readUint8` bounds check. -/
def pByte : List Nat → Except String (Nat × List Nat)
  | [] => .error "readUint8 out of range"
  | b :: rest => .ok (b, rest)

/-- Read an `n`-byte little-endian value and advance; node's `readUIntLE`
bounds check. -/
def pLE (n : Nat) (l : List Nat) : Except String (Nat × List Nat) :=
  if n ≤ l.length then .ok (leNat n l, l.drop n) else .error "readUIntLE out of range"

/-- The `metaRead`-gated mirror offsets of `parseFromGetFileSettings`
(`uidOffset` and `readCounterOffset`). -/
def parseSdmMeta (metaRead : Nat) (mirrorUid mirrorReadCounter : Bool)
    (r : List Nat) : Except String (Option Nat × Option Nat × List Nat) :=
  if metaRead = 0xe then do
    let (u, ra) ←
      if mirrorUid then (pLE 3 r).map (fun p => (some p.1, p.2))
      else .ok (none, r)
    let (rc, rb) ←
      if mirrorReadCounter then (pLE 3 ra).map (fun p => (some p.1, p.2))
      else .ok (none, ra)
    .ok (u, rc, rb)
  else .ok (none, none, r)

/-- The `fileRead`-gated MAC tail of `parseFromGetFileSettings`
(`macInputOffset`, `encryptedFileData`, `macOffset`, `readCounterLimit`). -/
def parseSdmFile (fileRead : Nat) (encFileData hasReadCounterLimit : Bool)
    (r : List Nat) :
    Except String (Option Nat × Option EncryptedFileDataV × Option Nat ×
      Option Nat × List Nat) :=
  if fileRead ≠ 0xf then do
    let (mio, ra) ← pLE 3 r
    let (efd, rb) ←
      if encFileData then do
        let (off, r1) ← pLE 3 ra
        let (len, r2) ← pLE 3 r1
        .ok (some (⟨off, len⟩ : EncryptedFileDataV), r2)
      else .ok (none, ra)
    let (mo, rc) ← pLE 3 rb
    let (lim, rd) ←
      if hasReadCounterLimit then (pLE 3 rc).map (fun p => (some p.1, p.2))
      else .ok (none, rc)
    .ok (some mio, efd, some mo, lim, rd)
  else .ok (none, none, none, none, r)

/-- The SDM section of `parseFromGetFileSettings` (everything the source
reads once `sdmEnabled` holds).  The source reads at a monotonically
advancing index into the buffer; the embedding passes the remaining bytes
along instead. -/
def parseSdmSection (r4 : List Nat) : Except String (SdmOptionsV × List Nat) := do
  let (intSdmOptions, r5) ← pByte r4
  let mirrorUid := intSdmOptions &&& 128 != 0
  let mirrorReadCounter := intSdmOptions &&& 64 != 0
  let hasReadCounterLimit := intSdmOptions &&& 32 != 0
  let encFileData := intSdmOptions &&& 16 != 0
  if intSdmOptions &&& 1 ≠ 1 then .error unsupportedEncodingMsg
  else do
    let (intAccessRights, r6) ← pLE 2 r5
    let sdmAccessRights : SDMAccessRightsV :=
      ⟨(intAccessRights >>> 12) &&& 0xf, (intAccessRights >>> 8) &&& 0xf,
        intAccessRights &&& 0xf⟩
    let (uidOffset, readCounterOffset, r8) ←
      parseSdmMeta sdmAccessRights.metaRead mirrorUid mirrorReadCounter r6
    let (piccDataOffset, r9) ←
      if sdmAccessRights.metaRead ≤ 4 then (pLE 3 r8).map (fun p => (some p.1, p.2))
      else .ok (none, r8)
    let (macInputOffset, encryptedFileData, macOffset, readCounterLimit, r10) ←
      parseSdmFile sdmAccessRights.fileRead encFileData hasReadCounterLimit r9
    .ok (⟨uidOffset, readCounterOffset, piccDataOffset, macInputOffset, macOffset,
      encryptedFileData, readCounterLimit, sdmAccessRights⟩, r10)

/-- `parseFromGetFileSettings`.  The `console.assert` on the RFU bits of
`fileOption` does not throw in node and is therefore a no-op here. -/
def parseFromGetFileSettings (buffer : List Nat) : Except String GetFileSettingsV := do
  let (fileType, r1) ← pByte buffer
  if fileType ≠ 0 then .error unsupportedFileTypeMsg
  else do
    let (fileOption, r2) ← pByte r1
    let sdmEnabled := fileOption &&& 64 != 0
    let commMode := commModeLookup (fileOption &&& 3)
    let (intAccessRights, r3) ← pLE 2 r2
    let accessRights : FileAccessRightsV :=
      ⟨(intAccessRights >>> 12) &&& 0xf, (intAccessRights >>> 8) &&& 0xf,
        (intAccessRights >>> 4) &&& 0xf, intAccessRights &&& 0xf⟩
    let (fileSize, r4) ← pLE 3 r3
    if sdmEnabled then do
      let (so, r5) ← parseSdmSection r4
      if r5 ≠ [] then .error trailingBytesMsg
      else .ok ⟨fileType, accessRights, fileSize, commMode, some so⟩
    else
      if r4 ≠ [] then .error trailingBytesMsg
      else .ok ⟨fileType, accessRights, fileSize, commMode, none⟩

/-- N Plain-mode sends in sequence, the card answering each with a bare OK
status (the response bytes do not influence the session state). -/
def iterPlainSends : Nat → SessionState → SessionState
  | 0, st => st
  | n + 1, st => iterPlainSends n (sendPlainCommand st (.ok [0x91, 0x00])).2

deriving instance DecidableEq for Except

/-! ### AES-128 inversion lemmas -/

theorem IsBytes_nil : IsBytes [] := by intro b hb; cases hb

theorem IsBytes_nil_iff : IsBytes [] ↔ True :=
  ⟨fun _ => trivial, fun _ => IsBytes_nil⟩

theorem IsBytes_cons {x : Nat} {l : List Nat} :
    IsBytes (x :: l) ↔ x < 256 ∧ IsBytes l := by
  constructor
  · intro h
    exact ⟨h x (List.mem_cons_self x l), fun b hb => h b (List.mem_cons_of_mem x hb)⟩
  · rintro ⟨hx, hl⟩ b hb
    rcases List.mem_cons.mp hb with rfl | hb
    · exact hx
    · exact hl b hb

theorem IsBytes_append {a b : List Nat} :
    IsBytes (a ++ b) ↔ IsBytes a ∧ IsBytes b := by
  constructor
  · intro h
    exact ⟨fun x hx => h x (List.mem_append_left b hx),
      fun x hx => h x (List.mem_append_right a hx)⟩
  · rintro ⟨ha, hb⟩ x hx
    rcases List.mem_append.mp hx with hx | hx
    · exact ha x hx
    · exact hb x hx

theorem xor_lt_256 {x y : Nat} (hx : x < 256) (hy : y < 256) : x ^^^ y < 256 :=
  Nat.xor_lt_two_pow (n := 8) hx hy

theorem xor_left_comm (a b c : Nat) : a ^^^ (b ^^^ c) = b ^^^ (a ^^^ c) := by
  rw [← Nat.xor_assoc, Nat.xor_comm a b, Nat.xor_assoc]

theorem xor_cancel_left (a b : Nat) : a ^^^ (a ^^^ b) = b := by
  rw [← Nat.xor_assoc, Nat.xor_self, Nat.zero_xor]

theorem mul_two_xor (x y : Nat) : (x ^^^ y) * 2 = x * 2 ^^^ y * 2 := by
  have h : ∀ z : Nat, z * 2 = z <<< 1 := fun z => by
    rw [Nat.shiftLeft_eq, pow_one]
  rw [h, h, h]
  apply Nat.eq_of_testBit_eq
  intro i
  simp only [Nat.testBit_xor, Nat.testBit_shiftLeft]
  cases decide (1 ≤ i) <;> simp

theorem xor_mod_256 (x y : Nat) : (x ^^^ y) % 256 = x % 256 ^^^ y % 256 := by
  have h256 : (256 : Nat) = 2 ^ 8 := rfl
  rw [h256]
  apply Nat.eq_of_testBit_eq
  intro i
  rw [Nat.testBit_mod_two_pow, Nat.testBit_xor, Nat.testBit_xor,
    Nat.testBit_mod_two_pow, Nat.testBit_mod_two_pow]
  cases decide (i < 8) <;> simp

theorem testBit_seven {x : Nat} (hx : x < 256) :
    x.testBit 7 = decide (128 ≤ x) := by
  rw [Nat.testBit_to_div_mod, decide_eq_decide]
  omega

theorem xtime_lt (z : Nat) : xtime z < 256 := by
  unfold xtime
  split
  · omega
  · exact Nat.mod_lt _ (by norm_num)

theorem xtime_closed {x : Nat} (hx : x < 256) :
    xtime x = x * 2 % 256 ^^^ (if 128 ≤ x then 27 else 0) := by
  unfold xtime
  split
  · rw [if_neg (by omega), Nat.xor_zero, Nat.mod_eq_of_lt (by omega), Nat.two_mul x]
    omega
  · rw [if_pos (by omega), xor_mod_256, Nat.mod_eq_of_lt (show 27 < 256 by norm_num),
      Nat.two_mul x]
    congr 1
    omega

theorem xtime_linear {x y : Nat} (hx : x < 256) (hy : y < 256) :
    xtime (x ^^^ y) = xtime x ^^^ xtime y := by
  have hxy : x ^^^ y < 256 := xor_lt_256 hx hy
  have h7 : decide (128 ≤ x ^^^ y) = ((decide (128 ≤ x)).xor (decide (128 ≤ y))) := by
    rw [← testBit_seven hxy, Nat.testBit_xor, testBit_seven hx, testBit_seven hy]
  rw [xtime_closed hx, xtime_closed hy, xtime_closed hxy, mul_two_xor, xor_mod_256]
  by_cases h1 : 128 ≤ x <;> by_cases h2 : 128 ≤ y <;> simp [h1, h2] at h7 ⊢ <;>
    first
    | (rw [if_neg (by omega)]
       simp [Nat.xor_assoc, Nat.xor_comm, xor_left_comm, xor_cancel_left])
    | (rw [if_pos (by omega)]
       simp [Nat.xor_assoc, Nat.xor_comm, xor_left_comm, xor_cancel_left])

theorem gm2_lt {x : Nat} (_ : x < 256) : gm2 x < 256 := xtime_lt x

theorem gm3_lt {x : Nat} (hx : x < 256) : gm3 x < 256 :=
  xor_lt_256 (xtime_lt x) hx

theorem gm9_lt {x : Nat} (hx : x < 256) : gm9 x < 256 :=
  xor_lt_256 (xtime_lt _) hx

theorem gm11_lt {x : Nat} (hx : x < 256) : gm11 x < 256 :=
  xor_lt_256 (xor_lt_256 (xtime_lt _) (xtime_lt _)) hx

theorem gm13_lt {x : Nat} (hx : x < 256) : gm13 x < 256 :=
  xor_lt_256 (xor_lt_256 (xtime_lt _) (xtime_lt _)) hx

theorem gm14_lt {_x : Nat} : gm14 _x < 256 :=
  xor_lt_256 (xor_lt_256 (xtime_lt _) (xtime_lt _)) (xtime_lt _)

theorem xtime2_linear {x y : Nat} (hx : x < 256) (hy : y < 256) :
    xtime (xtime (x ^^^ y)) = xtime (xtime x) ^^^ xtime (xtime y) := by
  rw [xtime_linear hx hy, xtime_linear (xtime_lt x) (xtime_lt y)]

theorem xtime3_linear {x y : Nat} (hx : x < 256) (hy : y < 256) :
    xtime (xtime (xtime (x ^^^ y))) =
      xtime (xtime (xtime x)) ^^^ xtime (xtime (xtime y)) := by
  rw [xtime2_linear hx hy, xtime_linear (xtime_lt _) (xtime_lt _)]

theorem gm2_linear {x y : Nat} (hx : x < 256) (hy : y < 256) :
    gm2 (x ^^^ y) = gm2 x ^^^ gm2 y := xtime_linear hx hy

theorem gm3_linear {x y : Nat} (hx : x < 256) (hy : y < 256) :
    gm3 (x ^^^ y) = gm3 x ^^^ gm3 y := by
  unfold gm3
  rw [xtime_linear hx hy]
  simp [Nat.xor_assoc, Nat.xor_comm, xor_left_comm]

theorem gm9_linear {x y : Nat} (hx : x < 256) (hy : y < 256) :
    gm9 (x ^^^ y) = gm9 x ^^^ gm9 y := by
  unfold gm9
  rw [xtime3_linear hx hy]
  simp [Nat.xor_assoc, Nat.xor_comm, xor_left_comm]

theorem gm11_linear {x y : Nat} (hx : x < 256) (hy : y < 256) :
    gm11 (x ^^^ y) = gm11 x ^^^ gm11 y := by
  unfold gm11
  rw [xtime3_linear hx hy, xtime_linear hx hy]
  simp [Nat.xor_assoc, Nat.xor_comm, xor_left_comm]

theorem gm13_linear {x y : Nat} (hx : x < 256) (hy : y < 256) :
    gm13 (x ^^^ y) = gm13 x ^^^ gm13 y := by
  unfold gm13
  rw [xtime3_linear hx hy, xtime2_linear hx hy]
  simp [Nat.xor_assoc, Nat.xor_comm, xor_left_comm]

theorem gm14_linear {x y : Nat} (hx : x < 256) (hy : y < 256) :
    gm14 (x ^^^ y) = gm14 x ^^^ gm14 y := by
  unfold gm14
  rw [xtime3_linear hx hy, xtime2_linear hx hy, xtime_linear hx hy]
  simp [Nat.xor_assoc, Nat.xor_comm, xor_left_comm]

set_option maxRecDepth 100000 in
theorem diag_self : ∀ x < 256, gm14 (gm2 x) ^^^ gm11 x ^^^ gm13 x ^^^ gm9 (gm3 x) = x := by
  decide

set_option maxRecDepth 100000 in
theorem diag_one : ∀ x < 256, gm14 (gm3 x) ^^^ gm11 (gm2 x) ^^^ gm13 x ^^^ gm9 x = 0 := by
  decide

set_option maxRecDepth 100000 in
theorem diag_two : ∀ x < 256, gm14 x ^^^ gm11 (gm3 x) ^^^ gm13 (gm2 x) ^^^ gm9 x = 0 := by
  decide

set_option maxRecDepth 100000 in
theorem diag_three : ∀ x < 256, gm14 x ^^^ gm11 x ^^^ gm13 (gm3 x) ^^^ gm9 (gm2 x) = 0 := by
  decide

theorem gm14_linear4 {w x y z : Nat} (hw : w < 256) (hx : x < 256) (hy : y < 256)
    (hz : z < 256) : gm14 (w ^^^ x ^^^ y ^^^ z) = gm14 w ^^^ gm14 x ^^^ gm14 y ^^^ gm14 z := by
  rw [gm14_linear (xor_lt_256 (xor_lt_256 hw hx) hy) hz,
    gm14_linear (xor_lt_256 hw hx) hy, gm14_linear hw hx]

theorem gm11_linear4 {w x y z : Nat} (hw : w < 256) (hx : x < 256) (hy : y < 256)
    (hz : z < 256) : gm11 (w ^^^ x ^^^ y ^^^ z) = gm11 w ^^^ gm11 x ^^^ gm11 y ^^^ gm11 z := by
  rw [gm11_linear (xor_lt_256 (xor_lt_256 hw hx) hy) hz,
    gm11_linear (xor_lt_256 hw hx) hy, gm11_linear hw hx]

theorem gm13_linear4 {w x y z : Nat} (hw : w < 256) (hx : x < 256) (hy : y < 256)
    (hz : z < 256) : gm13 (w ^^^ x ^^^ y ^^^ z) = gm13 w ^^^ gm13 x ^^^ gm13 y ^^^ gm13 z := by
  rw [gm13_linear (xor_lt_256 (xor_lt_256 hw hx) hy) hz,
    gm13_linear (xor_lt_256 hw hx) hy, gm13_linear hw hx]

theorem gm9_linear4 {w x y z : Nat} (hw : w < 256) (hx : x < 256) (hy : y < 256)
    (hz : z < 256) : gm9 (w ^^^ x ^^^ y ^^^ z) = gm9 w ^^^ gm9 x ^^^ gm9 y ^^^ gm9 z := by
  rw [gm9_linear (xor_lt_256 (xor_lt_256 hw hx) hy) hz,
    gm9_linear (xor_lt_256 hw hx) hy, gm9_linear hw hx]

theorem invCol_comp0 {a b c d : Nat} (ha : a < 256) (hb : b < 256) (hc : c < 256)
    (hd : d < 256) :
    gm14 (gm2 a ^^^ gm3 b ^^^ c ^^^ d) ^^^ gm11 (a ^^^ gm2 b ^^^ gm3 c ^^^ d) ^^^
      gm13 (a ^^^ b ^^^ gm2 c ^^^ gm3 d) ^^^ gm9 (gm3 a ^^^ b ^^^ c ^^^ gm2 d) = a := by
  rw [gm14_linear4 (gm2_lt ha) (gm3_lt hb) hc hd,
    gm11_linear4 ha (gm2_lt hb) (gm3_lt hc) hd,
    gm13_linear4 ha hb (gm2_lt hc) (gm3_lt hd),
    gm9_linear4 (gm3_lt ha) hb hc (gm2_lt hd)]
  calc _ = (gm14 (gm2 a) ^^^ gm11 a ^^^ gm13 a ^^^ gm9 (gm3 a)) ^^^
        ((gm14 (gm3 b) ^^^ gm11 (gm2 b) ^^^ gm13 b ^^^ gm9 b) ^^^
        ((gm14 c ^^^ gm11 (gm3 c) ^^^ gm13 (gm2 c) ^^^ gm9 c) ^^^
        (gm14 d ^^^ gm11 d ^^^ gm13 (gm3 d) ^^^ gm9 (gm2 d)))) := by
        simp [Nat.xor_assoc, Nat.xor_comm, xor_left_comm]
    _ = a := by
        rw [diag_self a ha, diag_one b hb, diag_two c hc, diag_three d hd]
        simp

theorem invCol_comp1 {a b c d : Nat} (ha : a < 256) (hb : b < 256) (hc : c < 256)
    (hd : d < 256) :
    gm9 (gm2 a ^^^ gm3 b ^^^ c ^^^ d) ^^^ gm14 (a ^^^ gm2 b ^^^ gm3 c ^^^ d) ^^^
      gm11 (a ^^^ b ^^^ gm2 c ^^^ gm3 d) ^^^ gm13 (gm3 a ^^^ b ^^^ c ^^^ gm2 d) = b := by
  rw [gm9_linear4 (gm2_lt ha) (gm3_lt hb) hc hd,
    gm14_linear4 ha (gm2_lt hb) (gm3_lt hc) hd,
    gm11_linear4 ha hb (gm2_lt hc) (gm3_lt hd),
    gm13_linear4 (gm3_lt ha) hb hc (gm2_lt hd)]
  calc _ = (gm14 a ^^^ gm11 a ^^^ gm13 (gm3 a) ^^^ gm9 (gm2 a)) ^^^
        ((gm14 (gm2 b) ^^^ gm11 b ^^^ gm13 b ^^^ gm9 (gm3 b)) ^^^
        ((gm14 (gm3 c) ^^^ gm11 (gm2 c) ^^^ gm13 c ^^^ gm9 c) ^^^
        (gm14 d ^^^ gm11 (gm3 d) ^^^ gm13 (gm2 d) ^^^ gm9 d))) := by
        simp [Nat.xor_assoc, Nat.xor_comm, xor_left_comm]
    _ = b := by
        rw [diag_three a ha, diag_self b hb, diag_one c hc, diag_two d hd]
        simp

theorem invCol_comp2 {a b c d : Nat} (ha : a < 256) (hb : b < 256) (hc : c < 256)
    (hd : d < 256) :
    gm13 (gm2 a ^^^ gm3 b ^^^ c ^^^ d) ^^^ gm9 (a ^^^ gm2 b ^^^ gm3 c ^^^ d) ^^^
      gm14 (a ^^^ b ^^^ gm2 c ^^^ gm3 d) ^^^ gm11 (gm3 a ^^^ b ^^^ c ^^^ gm2 d) = c := by
  rw [gm13_linear4 (gm2_lt ha) (gm3_lt hb) hc hd,
    gm9_linear4 ha (gm2_lt hb) (gm3_lt hc) hd,
    gm14_linear4 ha hb (gm2_lt hc) (gm3_lt hd),
    gm11_linear4 (gm3_lt ha) hb hc (gm2_lt hd)]
  calc _ = (gm14 a ^^^ gm11 (gm3 a) ^^^ gm13 (gm2 a) ^^^ gm9 a) ^^^
        ((gm14 b ^^^ gm11 b ^^^ gm13 (gm3 b) ^^^ gm9 (gm2 b)) ^^^
        ((gm14 (gm2 c) ^^^ gm11 c ^^^ gm13 c ^^^ gm9 (gm3 c)) ^^^
        (gm14 (gm3 d) ^^^ gm11 (gm2 d) ^^^ gm13 d ^^^ gm9 d))) := by
        simp [Nat.xor_assoc, Nat.xor_comm, xor_left_comm]
    _ = c := by
        rw [diag_two a ha, diag_three b hb, diag_self c hc, diag_one d hd]
        simp

theorem invCol_comp3 {a b c d : Nat} (ha : a < 256) (hb : b < 256) (hc : c < 256)
    (hd : d < 256) :
    gm11 (gm2 a ^^^ gm3 b ^^^ c ^^^ d) ^^^ gm13 (a ^^^ gm2 b ^^^ gm3 c ^^^ d) ^^^
      gm9 (a ^^^ b ^^^ gm2 c ^^^ gm3 d) ^^^ gm14 (gm3 a ^^^ b ^^^ c ^^^ gm2 d) = d := by
  rw [gm11_linear4 (gm2_lt ha) (gm3_lt hb) hc hd,
    gm13_linear4 ha (gm2_lt hb) (gm3_lt hc) hd,
    gm9_linear4 ha hb (gm2_lt hc) (gm3_lt hd),
    gm14_linear4 (gm3_lt ha) hb hc (gm2_lt hd)]
  calc _ = (gm14 (gm3 a) ^^^ gm11 (gm2 a) ^^^ gm13 a ^^^ gm9 a) ^^^
        ((gm14 b ^^^ gm11 (gm3 b) ^^^ gm13 (gm2 b) ^^^ gm9 b) ^^^
        ((gm14 c ^^^ gm11 c ^^^ gm13 (gm3 c) ^^^ gm9 (gm2 c)) ^^^
        (gm14 (gm2 d) ^^^ gm11 d ^^^ gm13 d ^^^ gm9 (gm3 d)))) := by
        simp [Nat.xor_assoc, Nat.xor_comm, xor_left_comm]
    _ = d := by
        rw [diag_one a ha, diag_two b hb, diag_three c hc, diag_self d hd]
        simp

theorem xorW_length (a b : List Nat) : (xorW a b).length = min a.length b.length := by
  simp [xorW]

theorem xorW_bytes {a b : List Nat} (ha : IsBytes a) (hb : IsBytes b) :
    IsBytes (xorW a b) := by
  induction a generalizing b with
  | nil => intro x hx; simp [xorW] at hx
  | cons x l ih =>
    cases b with
    | nil => intro y hy; simp [xorW] at hy
    | cons y m =>
      rcases IsBytes_cons.mp ha with ⟨hx, hl⟩
      rcases IsBytes_cons.mp hb with ⟨hy, hm⟩
      exact IsBytes_cons.mpr ⟨xor_lt_256 hx hy, ih hl hm⟩

theorem addRK_cancel {s k : List Nat} (h : s.length ≤ k.length) :
    addRK (addRK s k) k = s := by
  induction s generalizing k with
  | nil => simp [addRK, xorW]
  | cons x l ih =>
    cases k with
    | nil => simp at h
    | cons y m =>
      simp only [addRK, xorW, List.zipWith]
      rw [Nat.xor_cancel_right]
      exact congrArg _ (ih (by simpa using h))

theorem addRK_good {s k : List Nat} (hs : GoodB s) (hk : GoodB k) :
    GoodB (addRK s k) := by
  refine ⟨?_, xorW_bytes hs.2 hk.2⟩
  rw [addRK, xorW_length, hs.1, hk.1]
  omega

theorem getD_lt_of_all {l : List Nat} (h : ∀ x ∈ l, x < 256) (b : Nat) :
    l.getD b 0 < 256 := by
  rcases Nat.lt_or_ge b l.length with hb | hb
  · rw [List.getD_eq_getElem l 0 hb]
    exact h _ (List.getElem_mem hb)
  · rw [List.getD_eq_default l 0 hb]
    norm_num

set_option maxRecDepth 100000 in
theorem sboxTable_bytes : ∀ x ∈ sboxTable, x < 256 := by decide

set_option maxRecDepth 100000 in
theorem invSboxTable_bytes : ∀ x ∈ invSboxTable, x < 256 := by decide

theorem sboxAt_lt (b : Nat) : sboxAt b < 256 := getD_lt_of_all sboxTable_bytes b

theorem invSboxAt_lt (b : Nat) : invSboxAt b < 256 := getD_lt_of_all invSboxTable_bytes b

set_option maxRecDepth 100000 in
theorem invSbox_sbox : ∀ b < 256, invSboxAt (sboxAt b) = b := by decide

theorem subBytesL_length (s : List Nat) : (subBytesL s).length = s.length :=
  List.length_map s sboxAt

theorem subBytes_bytes (s : List Nat) : IsBytes (subBytesL s) := by
  intro b hb
  rcases List.mem_map.mp hb with ⟨a, _, rfl⟩
  exact sboxAt_lt a

theorem invSub_sub {s : List Nat} (h : IsBytes s) : invSubBytesL (subBytesL s) = s := by
  induction s with
  | nil => rfl
  | cons x l ih =>
    rcases IsBytes_cons.mp h with ⟨hx, hl⟩
    simp only [subBytesL, invSubBytesL, List.map_cons] at *
    rw [invSbox_sbox x hx, ih hl]

theorem invShift_shift (s : List Nat) : invShiftRowsL (shiftRowsL s) = s := by
  rcases s with _|⟨a0,_|⟨a1,_|⟨a2,_|⟨a3,_|⟨a4,_|⟨a5,_|⟨a6,_|⟨a7,_|⟨a8,_|⟨a9,_|⟨a10,
    _|⟨a11,_|⟨a12,_|⟨a13,_|⟨a14,_|⟨a15,_|⟨a16,rest⟩⟩⟩⟩⟩⟩⟩⟩⟩⟩⟩⟩⟩⟩⟩⟩⟩ <;> rfl

theorem shiftRows_length (s : List Nat) : (shiftRowsL s).length = s.length := by
  rcases s with _|⟨a0,_|⟨a1,_|⟨a2,_|⟨a3,_|⟨a4,_|⟨a5,_|⟨a6,_|⟨a7,_|⟨a8,_|⟨a9,_|⟨a10,
    _|⟨a11,_|⟨a12,_|⟨a13,_|⟨a14,_|⟨a15,_|⟨a16,rest⟩⟩⟩⟩⟩⟩⟩⟩⟩⟩⟩⟩⟩⟩⟩⟩⟩ <;> rfl

theorem shiftRows_bytes {s : List Nat} (h : IsBytes s) : IsBytes (shiftRowsL s) := by
  rcases s with _|⟨a0,_|⟨a1,_|⟨a2,_|⟨a3,_|⟨a4,_|⟨a5,_|⟨a6,_|⟨a7,_|⟨a8,_|⟨a9,_|⟨a10,
    _|⟨a11,_|⟨a12,_|⟨a13,_|⟨a14,_|⟨a15,_|⟨a16,rest⟩⟩⟩⟩⟩⟩⟩⟩⟩⟩⟩⟩⟩⟩⟩⟩⟩ <;>
    first
    | exact h
    | (simp only [shiftRowsL, IsBytes_cons, IsBytes_nil_iff, and_true] at h ⊢
       omega)

theorem mixCols_length (s : List Nat) : (mixColsL s).length = s.length := by
  induction s using mixColsL.induct with
  | case1 a b c d rest ih => simp [mixColsL, ih]
  | case2 other h =>
    rw [mixColsL.eq_def]
    split
    · exact absurd rfl (h _ _ _ _ _)
    · rfl

theorem mixCols_bytes {s : List Nat} (h : IsBytes s) : IsBytes (mixColsL s) := by
  induction s using mixColsL.induct with
  | case1 a b c d rest ih =>
    simp only [IsBytes_cons, mixColsL] at h ⊢
    obtain ⟨ha, hb, hc, hd, hrest⟩ := h
    refine ⟨?_, ?_, ?_, ?_, ih hrest⟩ <;>
      apply xor_lt_256 <;> first
        | apply xor_lt_256 (xor_lt_256 _ _) _
        | skip
    all_goals first
      | exact gm2_lt ha | exact gm3_lt ha | exact ha
      | exact gm2_lt hb | exact gm3_lt hb | exact hb
      | exact gm2_lt hc | exact gm3_lt hc | exact hc
      | exact gm2_lt hd | exact gm3_lt hd | exact hd
  | case2 other h2 =>
    rw [mixColsL.eq_def]
    split
    · exact absurd rfl (h2 _ _ _ _ _)
    · exact h

theorem invMix_mix {s : List Nat} (h : IsBytes s) : invMixColsL (mixColsL s) = s := by
  induction s using mixColsL.induct with
  | case1 a b c d rest ih =>
    simp only [IsBytes_cons, mixColsL] at h ⊢
    obtain ⟨ha, hb, hc, hd, hrest⟩ := h
    simp only [invMixColsL]
    rw [invCol_comp0 ha hb hc hd, invCol_comp1 ha hb hc hd,
      invCol_comp2 ha hb hc hd, invCol_comp3 ha hb hc hd, ih hrest]
  | case2 other h2 =>
    rw [mixColsL.eq_def]
    split
    · exact absurd rfl (h2 _ _ _ _ _)
    · rw [invMixColsL.eq_def]
      split
      · exact absurd rfl (h2 _ _ _ _ _)
      · rfl

theorem IsBytes_take {l : List Nat} (h : IsBytes l) (n : Nat) : IsBytes (l.take n) :=
  fun b hb => h b (List.mem_of_mem_take hb)

theorem IsBytes_drop {l : List Nat} (h : IsBytes l) (n : Nat) : IsBytes (l.drop n) :=
  fun b hb => h b (List.mem_of_mem_drop hb)

theorem rotateLeft_length (l : List Nat) : (rotateLeft l).length = l.length := by
  simp [rotateLeft]
  omega

theorem mapSbox_bytes (l : List Nat) : IsBytes (l.map sboxAt) := by
  intro b hb
  rcases List.mem_map.mp hb with ⟨a, _, rfl⟩
  exact sboxAt_lt a

theorem nextRoundKey_good {rc : Nat} {rk : List Nat} (hrc : rc < 256)
    (h : GoodB rk) : GoodB (nextRoundKey rc rk) := by
  obtain ⟨hlen, hby⟩ := h
  have hrc4 : IsBytes [rc, 0, 0, 0] := by
    simp [IsBytes_cons, IsBytes_nil_iff]
    omega
  constructor
  · simp [nextRoundKey, List.length_append, xorW_length, List.length_take,
      List.length_drop, List.length_map, rotateLeft_length, hlen]
  · simp only [nextRoundKey]
    refine IsBytes_append.mpr ⟨IsBytes_append.mpr ⟨IsBytes_append.mpr ⟨?_, ?_⟩, ?_⟩, ?_⟩ <;>
      repeat
        first
        | exact IsBytes_take hby 4
        | exact IsBytes_take (IsBytes_drop hby 4) 4
        | exact IsBytes_take (IsBytes_drop hby 8) 4
        | exact IsBytes_drop hby 12
        | exact mapSbox_bytes _
        | exact hrc4
        | apply xorW_bytes

theorem rconList_bytes : IsBytes rconList := by decide

theorem roundKeysGo_good : ∀ (rcs rk : List Nat), IsBytes rcs → GoodB rk →
    ∀ k ∈ roundKeysGo rcs rk, GoodB k := by
  intro rcs
  induction rcs with
  | nil => intro rk _ _ k hk; simp [roundKeysGo] at hk
  | cons rc rest ih =>
    intro rk hrcs hrk k hk
    rcases IsBytes_cons.mp hrcs with ⟨hrc, hrest⟩
    simp only [roundKeysGo, List.mem_cons] at hk
    rcases hk with rfl | hk
    · exact nextRoundKey_good hrc hrk
    · exact ih _ hrest (nextRoundKey_good hrc hrk) k hk

theorem roundKeys_good {key : List Nat} (h : GoodB key) :
    ∀ k ∈ roundKeys key, GoodB k := by
  intro k hk
  simp only [roundKeys, List.mem_cons] at hk
  rcases hk with rfl | hk
  · exact h
  · exact roundKeysGo_good _ _ rconList_bytes h k hk

theorem roundKeysGo_length : ∀ (rcs rk : List Nat),
    (roundKeysGo rcs rk).length = rcs.length := by
  intro rcs
  induction rcs with
  | nil => intro rk; rfl
  | cons rc rest ih => intro rk; simp [roundKeysGo, ih]

theorem roundKeys_length (key : List Nat) : (roundKeys key).length = 11 := by
  simp [roundKeys, roundKeysGo_length]
  rfl

theorem roundKeys_getD_good {key : List Nat} (h : GoodB key) {i : Nat}
    (hi : i < 11) : GoodB ((roundKeys key).getD i []) := by
  have hlen : (roundKeys key).length = 11 := roundKeys_length key
  rw [List.getD_eq_getElem _ _ (by omega)]
  exact roundKeys_good h _ (List.getElem_mem _)

theorem encRound_good {k s : List Nat} (hk : GoodB k) (hs : GoodB s) :
    GoodB (encRound k s) := by
  unfold encRound
  refine addRK_good ⟨?_, ?_⟩ hk
  · rw [mixCols_length, shiftRows_length, subBytesL_length, hs.1]
  · exact mixCols_bytes (shiftRows_bytes (subBytes_bytes _))

theorem decRound_encRound {k s : List Nat} (hk : GoodB k) (hs : GoodB s) :
    decRound k (encRound k s) = s := by
  unfold decRound encRound
  rw [addRK_cancel (by simp [mixCols_length, shiftRows_length, subBytesL_length,
      hs.1, hk.1]),
    invMix_mix (shiftRows_bytes (subBytes_bytes _)), invShift_shift, invSub_sub hs.2]

theorem foldl_enc_good : ∀ (ks : List (List Nat)) (s : List Nat),
    (∀ k ∈ ks, GoodB k) → GoodB s →
    GoodB (ks.foldl (fun s k => encRound k s) s) := by
  intro ks
  induction ks with
  | nil => intro s _ hs; exact hs
  | cons k rest ih =>
    intro s hks hs
    simp only [List.foldl_cons]
    exact ih _ (fun j hj => hks j (List.mem_cons_of_mem _ hj))
      (encRound_good (hks k (List.mem_cons_self _ _)) hs)

theorem foldl_dec_enc : ∀ (ks : List (List Nat)) (s : List Nat),
    (∀ k ∈ ks, GoodB k) → GoodB s →
    (ks.reverse).foldl (fun s k => decRound k s)
      (ks.foldl (fun s k => encRound k s) s) = s := by
  intro ks
  induction ks with
  | nil => intro s _ _; rfl
  | cons k rest ih =>
    intro s hks hs
    have hk : GoodB k := hks k (List.mem_cons_self _ _)
    have hrest : ∀ j ∈ rest, GoodB j := fun j hj => hks j (List.mem_cons_of_mem _ hj)
    simp only [List.reverse_cons, List.foldl_cons, List.foldl_append, List.foldl_nil]
    rw [ih (encRound k s) hrest (encRound_good hk hs)]
    exact decRound_encRound hk hs

/-- The central cipher fact: AES-128 decryption inverts encryption on
well-formed keys and blocks. -/
theorem decBlock_encBlock {key b : List Nat} (hkey : GoodB key) (hb : GoodB b) :
    decBlock key (encBlock key b) = b := by
  simp only [encBlock, decBlock, encBlockK, decBlockK]
  have h0 := roundKeys_getD_good hkey (show (0 : Nat) < 11 by norm_num)
  have h10 := roundKeys_getD_good hkey (show (10 : Nat) < 11 by norm_num)
  have hmid : ∀ k ∈ ((roundKeys key).drop 1).take 9, GoodB k := fun k hk =>
    roundKeys_good hkey k (List.mem_of_mem_drop (List.mem_of_mem_take hk))
  have hX := foldl_enc_good (((roundKeys key).drop 1).take 9) _ hmid (addRK_good hb h0)
  rw [addRK_cancel (by rw [shiftRows_length, subBytesL_length, hX.1, h10.1]),
    invShift_shift, invSub_sub hX.2,
    foldl_dec_enc (((roundKeys key).drop 1).take 9) _ hmid (addRK_good hb h0)]
  exact addRK_cancel (by rw [hb.1, h0.1])

/-! ### CBC-layer lemmas -/

theorem encBlock_good {key b : List Nat} (hk : GoodB key) (hb : GoodB b) :
    GoodB (encBlock key b) := by
  simp only [encBlock, encBlockK]
  have h0 := roundKeys_getD_good hk (show (0 : Nat) < 11 by norm_num)
  have h10 := roundKeys_getD_good hk (show (10 : Nat) < 11 by norm_num)
  have hmid : ∀ k ∈ ((roundKeys key).drop 1).take 9, GoodB k := fun k hk2 =>
    roundKeys_good hk k (List.mem_of_mem_drop (List.mem_of_mem_take hk2))
  have hX := foldl_enc_good (((roundKeys key).drop 1).take 9) _ hmid (addRK_good hb h0)
  exact addRK_good ⟨by rw [shiftRows_length, subBytesL_length, hX.1],
    shiftRows_bytes (subBytes_bytes _)⟩ h10

theorem xorW_good {a b : List Nat} (ha : GoodB a) (hb : GoodB b) :
    GoodB (xorW a b) := by
  refine ⟨?_, xorW_bytes ha.2 hb.2⟩
  rw [xorW_length, ha.1, hb.1]
  omega

theorem xorW_cancel : ∀ {b iv : List Nat}, b.length ≤ iv.length →
    xorW (xorW iv b) iv = b := by
  intro b
  induction b with
  | nil => intro iv _; cases iv <;> rfl
  | cons x l ih =>
    intro iv h
    cases iv with
    | nil => simp at h
    | cons i m =>
      simp only [xorW, List.zipWith]
      rw [Nat.xor_comm i x, Nat.xor_cancel_right]
      exact congrArg _ (ih (by simpa using h))

theorem cbcEncBlocks_good {key : List Nat} (hkey : GoodB key) :
    ∀ (bs : List (List Nat)) (iv : List Nat), GoodB iv → (∀ b ∈ bs, GoodB b) →
    ∀ c ∈ cbcEncBlocks key iv bs, GoodB c := by
  intro bs
  induction bs with
  | nil => intro iv _ _ c hc; simp [cbcEncBlocks] at hc
  | cons b rest ih =>
    intro iv hiv hbs c hc
    have hb : GoodB b := hbs b (List.mem_cons_self _ _)
    have hcblk : GoodB (encBlock key (xorW iv b)) :=
      encBlock_good hkey (xorW_good hiv hb)
    simp only [cbcEncBlocks, List.mem_cons] at hc
    rcases hc with heq | hc
    · rw [heq]; exact hcblk
    · exact ih _ hcblk (fun j hj => hbs j (List.mem_cons_of_mem _ hj)) c hc

theorem cbcDec_cbcEnc {key : List Nat} (hkey : GoodB key) :
    ∀ (bs : List (List Nat)) (iv : List Nat), GoodB iv → (∀ b ∈ bs, GoodB b) →
    cbcDecBlocks key iv (cbcEncBlocks key iv bs) = bs := by
  intro bs
  induction bs with
  | nil => intro iv _ _; rfl
  | cons b rest ih =>
    intro iv hiv hbs
    have hb : GoodB b := hbs b (List.mem_cons_self _ _)
    have hxor : GoodB (xorW iv b) := xorW_good hiv hb
    simp only [cbcEncBlocks, cbcDecBlocks]
    rw [decBlock_encBlock hkey hxor, xorW_cancel (by rw [hb.1, hiv.1])]
    exact congrArg _
      (ih _ (encBlock_good hkey hxor) (fun j hj => hbs j (List.mem_cons_of_mem _ hj)))

theorem chunk16_cons16 {b rest : List Nat} (hb : b.length = 16) :
    chunk16 (b ++ rest) = b :: chunk16 rest := by
  rcases b with _|⟨a0,_|⟨a1,_|⟨a2,_|⟨a3,_|⟨a4,_|⟨a5,_|⟨a6,_|⟨a7,_|⟨a8,_|⟨a9,_|⟨a10,
    _|⟨a11,_|⟨a12,_|⟨a13,_|⟨a14,_|⟨a15,_|⟨a16,rest2⟩⟩⟩⟩⟩⟩⟩⟩⟩⟩⟩⟩⟩⟩⟩⟩⟩ <;>
    first
    | rfl
    | (exfalso; simp [List.length_cons] at hb)

theorem flatten_chunk16 (l : List Nat) : (chunk16 l).flatten = l := by
  induction l using chunk16.induct with
  | case1 => rfl
  | case2 b1 b2 b3 b4 b5 b6 b7 b8 b9 b10 b11 b12 b13 b14 b15 b16 rest ih =>
    simp [chunk16, ih]
  | case3 short h1 h2 =>
    rcases short with _|⟨a0,_|⟨a1,_|⟨a2,_|⟨a3,_|⟨a4,_|⟨a5,_|⟨a6,_|⟨a7,_|⟨a8,_|⟨a9,
      _|⟨a10,_|⟨a11,_|⟨a12,_|⟨a13,_|⟨a14,_|⟨a15,_|⟨a16,rest2⟩⟩⟩⟩⟩⟩⟩⟩⟩⟩⟩⟩⟩⟩⟩⟩⟩ <;>
      first
      | exact absurd rfl h1
      | rfl
      | exact absurd rfl (h2 _ _ _ _ _ _ _ _ _ _ _ _ _ _ _ _ _)

theorem chunk16_flatten_inv : ∀ (bs : List (List Nat)),
    (∀ b ∈ bs, b.length = 16) → chunk16 bs.flatten = bs := by
  intro bs
  induction bs with
  | nil => intro _; rfl
  | cons b rest ih =>
    intro h
    rw [List.flatten_cons, chunk16_cons16 (h b (List.mem_cons_self _ _))]
    exact congrArg _ (ih fun j hj => h j (List.mem_cons_of_mem _ hj))

theorem chunk16_all_good : ∀ (l : List Nat), l.length % 16 = 0 → IsBytes l →
    ∀ b ∈ chunk16 l, GoodB b := by
  intro l
  induction l using chunk16.induct with
  | case1 => intro _ _ b hb; simp [chunk16] at hb
  | case2 b1 b2 b3 b4 b5 b6 b7 b8 b9 b10 b11 b12 b13 b14 b15 b16 rest ih =>
    intro hlen hby b hb
    simp only [IsBytes_cons] at hby
    obtain ⟨g1, g2, g3, g4, g5, g6, g7, g8, g9, g10, g11, g12, g13, g14, g15, g16,
      hrest⟩ := hby
    simp only [chunk16, List.mem_cons] at hb
    rcases hb with rfl | hb
    · refine ⟨rfl, ?_⟩
      simp only [IsBytes_cons, IsBytes_nil_iff, and_true]
      omega
    · refine ih ?_ hrest b hb
      simp only [List.length_cons] at hlen
      omega
  | case3 short h1 h2 =>
    intro hlen _ b hb
    exfalso
    rcases short with _|⟨a0,_|⟨a1,_|⟨a2,_|⟨a3,_|⟨a4,_|⟨a5,_|⟨a6,_|⟨a7,_|⟨a8,_|⟨a9,
      _|⟨a10,_|⟨a11,_|⟨a12,_|⟨a13,_|⟨a14,_|⟨a15,_|⟨a16,rest2⟩⟩⟩⟩⟩⟩⟩⟩⟩⟩⟩⟩⟩⟩⟩⟩⟩ <;>
      first
      | exact h1 rfl
      | exact h2 _ _ _ _ _ _ _ _ _ _ _ _ _ _ _ _ _ rfl
      | (simp [List.length_cons] at hlen)

theorem flatten_len_mod (bs : List (List Nat)) (h : ∀ b ∈ bs, GoodB b) :
    bs.flatten.length % 16 = 0 := by
  induction bs with
  | nil => rfl
  | cons b rest ih =>
    have hb : b.length = 16 := (h b (List.mem_cons_self _ _)).1
    have := ih fun j hj => h j (List.mem_cons_of_mem _ hj)
    simp only [List.flatten_cons, List.length_append, hb]
    omega

theorem li80_replicate_zero (n : Nat) :
    lastIndexOf80 (List.replicate n 0) = none := by
  induction n with
  | zero => rfl
  | succ k ih => simp [List.replicate_succ, lastIndexOf80, ih]

theorem li80_marker (pt : List Nat) (n : Nat) :
    lastIndexOf80 (pt ++ 0x80 :: List.replicate n 0) = some pt.length := by
  induction pt with
  | nil => simp [lastIndexOf80, li80_replicate_zero n]
  | cons x l ih => simp [lastIndexOf80, ih]

/-- The ISO 9797-1 M/2 padding that `encryptCbc` applies, written in the
closed form of the specification: append `0x80`, then zero-fill to the
next 16-byte boundary. -/
theorem encryptCbc_pad_shape (data : List Nat) :
    (let dataToPad := data ++ [0x80]
     let paddingLength := 16 - dataToPad.length % 16
     if paddingLength = 16 then dataToPad
     else dataToPad ++ List.replicate paddingLength 0) =
    data ++ 0x80 :: List.replicate ((16 - (data.length + 1) % 16) % 16) 0 := by
  simp only [List.length_append, List.length_cons, List.length_nil]
  by_cases h0 : (data.length + 1) % 16 = 0
  · rw [if_pos (by omega)]
    have hz : (16 - (data.length + 1) % 16) % 16 = 0 := by omega
    simp [hz]
  · rw [if_neg (by omega)]
    have hz : (16 - (data.length + 1) % 16) % 16 = 16 - (data.length + 1) % 16 := by
      omega
    simp [hz, List.append_assoc]

/-- **C6.** For every 16-byte key, every 16-byte IV and every byte string
`pt`, `decryptCbc key (encryptCbc key pt iv true) iv true` recovers `pt`;
the padded plaintext that gets encrypted is `pt ++ 0x80 ++ zero fill` to
the next 16-byte boundary, and a full 16-byte padding block is added when
`pt` is already aligned. -/
theorem cbc_roundtrip_with_padding (key iv pt : List Nat)
    (hkeyLen : key.length = 16) (hkeyBytes : IsBytes key)
    (hivLen : iv.length = 16) (hivBytes : IsBytes iv) (hpt : IsBytes pt) :
    ∃ ct, encryptCbc key pt iv true = .ok ct ∧
      decryptCbc key ct iv true = .ok pt ∧
      encryptCbc key pt iv true =
        encryptCbc key
          (pt ++ 0x80 :: List.replicate ((16 - (pt.length + 1) % 16) % 16) 0) iv false ∧
      (pt.length % 16 = 0 →
        (pt ++ 0x80 :: List.replicate ((16 - (pt.length + 1) % 16) % 16) 0).length =
          pt.length + 16) := by
  have hkey : GoodB key := ⟨hkeyLen, hkeyBytes⟩
  have hiv : GoodB iv := ⟨hivLen, hivBytes⟩
  set padded := pt ++ 0x80 :: List.replicate ((16 - (pt.length + 1) % 16) % 16) 0
    with hpadded
  have hpadlen : padded.length % 16 = 0 := by
    rw [hpadded]
    simp only [List.length_append, List.length_cons, List.length_replicate]
    omega
  have hpadbytes : IsBytes padded := by
    rw [hpadded]
    refine IsBytes_append.mpr ⟨hpt, ?_⟩
    intro b hb
    rcases List.mem_cons.mp hb with rfl | hb
    · norm_num
    · rw [List.eq_of_mem_replicate hb]
      norm_num
  have hchunks : ∀ b ∈ chunk16 padded, GoodB b := chunk16_all_good _ hpadlen hpadbytes
  have henc : encryptCbc key pt iv true =
      .ok (cbcEncBlocks key iv (chunk16 padded)).flatten := by
    simp only [encryptCbc, if_pos]
    rw [encryptCbc_pad_shape pt]
  have hctblocks : ∀ c ∈ cbcEncBlocks key iv (chunk16 padded), GoodB c :=
    cbcEncBlocks_good hkey _ _ hiv hchunks
  have hctlen : ((cbcEncBlocks key iv (chunk16 padded)).flatten).length % 16 = 0 :=
    flatten_len_mod _ hctblocks
  have hcond : ¬ ((cbcEncBlocks key iv (chunk16 padded)).flatten.length % 16 ≠ 0) := by
    omega
  have hcond2 : ¬ (padded.length % 16 ≠ 0) := by omega
  refine ⟨(cbcEncBlocks key iv (chunk16 padded)).flatten, henc, ?_, ?_, ?_⟩
  · simp only [decryptCbc]
    rw [if_neg hcond]
    rw [chunk16_flatten_inv _ (fun b hb => (hctblocks b hb).1),
      cbcDec_cbcEnc hkey _ _ hiv hchunks, flatten_chunk16, hpadded, li80_marker]
    simp [List.take_left]
  · rw [henc]
    simp only [encryptCbc]
    rw [if_neg hcond2]
    simp
  · intro haligned
    rw [hpadded]
    simp only [List.length_append, List.length_cons, List.length_replicate]
    omega

/-- Witness for C6 at key = iv = sixteen zero bytes, pt = [1, 2, 3]. -/
theorem cbc_roundtrip_with_padding_witness :
    ∃ ct, encryptCbc (List.replicate 16 0) [1, 2, 3] (List.replicate 16 0) true = .ok ct ∧
      decryptCbc (List.replicate 16 0) ct (List.replicate 16 0) true = .ok [1, 2, 3] ∧
      encryptCbc (List.replicate 16 0) [1, 2, 3] (List.replicate 16 0) true =
        encryptCbc (List.replicate 16 0)
          ([1, 2, 3] ++ 0x80 :: List.replicate ((16 - ([1, 2, 3].length + 1) % 16) % 16) 0)
          (List.replicate 16 0) false ∧
      ([1, 2, 3].length % 16 = 0 →
        ([1, 2, 3] ++ 0x80 :: List.replicate ((16 - ([1, 2, 3].length + 1) % 16) % 16) 0).length =
          [1, 2, 3].length + 16) :=
  cbc_roundtrip_with_padding (List.replicate 16 0) (List.replicate 16 0) [1, 2, 3]
    (by decide) (by decide) (by decide) (by decide) (by decide)

/-! ### Claim theorems for the dispatcher, authentication, configuration,
and SDM validation -/

/-- **C2.** `authenticate` is atomic: when any step of the two
`AuthenticateEV2First` exchanges or the session-key derivation fails, the
session state (installed authentication and command counter) is returned
untouched; only when every step succeeds is the new state installed, with
the command counter reset to 0. -/
theorem authenticate_atomic (st : SessionState) (key : List Nat)
    (raw1 raw2 : Except Unit (List Nat)) (rndA : List Nat) :
    (∃ e, authenticateSteps key raw1 raw2 rndA = .error e ∧
      authenticate st key raw1 raw2 rndA = (.error e, st)) ∨
    (∃ p, authenticateSteps key raw1 raw2 rndA = .ok p ∧
      authenticate st key raw1 raw2 rndA = (.ok (), ⟨0, some p⟩)) := by
  cases h : authenticateSteps key raw1 raw2 rndA with
  | error e => exact Or.inl ⟨e, rfl, by simp [authenticate, h]⟩
  | ok p => exact Or.inr ⟨p, rfl, by simp [authenticate, h]⟩

/-- **C3.** The `authFailCounter` enabled branch of
`serializeConfigurationUpdate` throws for every limit and decrement,
because the source guards read `0 <= limit || limit < 0xffff` (always
true) instead of rejecting only out-of-range values.  In particular the
spec-valid input limit = 1000, decrement = 10 is rejected. -/
theorem authFailCounter_enabled_always_errors (limit decrement : Nat) :
    serializeConfigurationUpdate (.authFailCounter true limit decrement) =
      .error failCounterLimitMsg := by
  simp [serializeConfigurationUpdate, Nat.zero_le]

theorem iterPlainSends_counter : ∀ (n : Nat) (st : SessionState),
    (iterPlainSends n st).commandCounter = st.commandCounter + n := by
  intro n
  induction n with
  | zero => intro st; rfl
  | succ k ih =>
    intro st
    rw [iterPlainSends, ih]
    simp [sendPlainCommand]
    omega

/-- **C4 (amended).** After N completed Plain-mode sends from a fresh
counter, `commandCounter` equals N exactly: the counter is a plain
JavaScript number and is never reduced modulo 2^16, so it agrees with
N mod 2^16 only while N < 2^16. -/
theorem plain_counter_no_wrap (N : Nat) :
    (iterPlainSends N ⟨0, none⟩).commandCounter = N := by
  rw [iterPlainSends_counter]
  norm_num

/-- **C4 counterexample.** After 2^16 Plain-mode sends the counter is
2^16, not 2^16 mod 2^16 = 0, refuting the claim that the counter wraps. -/
theorem plain_counter_wrap_cex :
    (iterPlainSends 65536 ⟨0, none⟩).commandCounter = 65536 ∧
    65536 % 2 ^ 16 = 0 ∧
    (iterPlainSends 65536 ⟨0, none⟩).commandCounter ≠ 65536 % 2 ^ 16 := by
  rw [iterPlainSends_counter]
  norm_num

/-- **C5.** A Plain-mode send whose transport throws still increments the
command counter (the source increments before awaiting the reader), while
a Mac-mode send with a session installed leaves the state untouched on the
same failure — the code violates its own stated policy of incrementing
only after a successful native send. -/
theorem plain_send_increments_on_transport_error :
    sendPlainCommand ⟨0, none⟩ (.error ()) = (.error transportErrorMsg, ⟨1, none⟩) ∧
    (sendWithMac ⟨0, some ⟨[0, 0, 0, 0], List.replicate 16 0, List.replicate 16 0⟩⟩
      0xf5 [0x02] none (.error ())).2 =
      ⟨0, some ⟨[0, 0, 0, 0], List.replicate 16 0, List.replicate 16 0⟩⟩ :=
  ⟨rfl, rfl⟩

/-- **C8.** A `GetFileSettings` buffer whose `fileOption` has RFU bit 2
set (`0x04`) is parsed successfully: the source's `console.assert` on the
RFU mask `0b0011_1100` never throws, so the parser returns a value instead
of failing. -/
theorem rfu_bits_do_not_fail :
    parseFromGetFileSettings [0x00, 0x04, 0xe0, 0xee, 0x00, 0x01, 0x00] =
      .ok ⟨0, ⟨14, 14, 14, 0⟩, 256, some .plain, none⟩ := by
  decide

/-- **C9.** With both keys all-zero, `validateAndDecryptPicc` on the
specification's vector returns uid `049d98f20b1090` and counter 56, and
the truncated CMAC recomputed over the session vector
`3C C3 00 01 00 80 ‖ uid ‖ counter as 3-byte LE` equals the given
signature MAC. -/
theorem sdm_decrypt_validate_vector :
    validateAndDecryptPicc (List.replicate 16 0) (List.replicate 16 0)
      [0x1c, 0xc4, 0x9b, 0x9a, 0xa4, 0x7d, 0x28, 0x37,
       0xe5, 0xf1, 0xa1, 0xb5, 0xde, 0xae, 0x81, 0x1c]
      [0x64, 0x88, 0xae, 0xba, 0x44, 0x04, 0x4c, 0xbf] =
      .ok (some ⟨some [0x04, 0x9d, 0x98, 0xf2, 0x0b, 0x10, 0x90], some 56⟩) ∧
    reduceMac (cmac (cmac (List.replicate 16 0)
        ([0x3c, 0xc3, 0x00, 0x01, 0x00, 0x80] ++
          [0x04, 0x9d, 0x98, 0xf2, 0x0b, 0x10, 0x90] ++ [0x38, 0x00, 0x00])) []) =
      [0x64, 0x88, 0xae, 0xba, 0x44, 0x04, 0x4c, 0xbf] := by
  exact ⟨by set_option maxRecDepth 100000 in decide, by set_option maxRecDepth 100000 in decide⟩

/-- **C10.** A read counter of 0 is indistinguishable from an absent
counter in `validatePlainPiccMac`: the session vector is zero-initialised
and the JavaScript `if (counter)` skips writing a zero counter, so both
calls agree for every key, every UID and every signature. -/
theorem counter_zero_equals_absent (fileReadKey : List Nat)
    (uid : Option (List Nat)) (signatureMac : List Nat) :
    validatePlainPiccMac fileReadKey uid (some 0) signatureMac =
      validatePlainPiccMac fileReadKey uid none signatureMac := rfl

/-- **C1.** A Mac-mode send with a session installed, on a response that
arrived (raw bytes `response`): if the status is OK and a payload is
present, the dispatcher splits the payload into body and trailing 8-byte
MAC, recomputes the truncated CMAC with the session MAC key over
`[SW2, LSB(counter), MSB(counter), TI, body]` at the post-increment
counter, succeeds exactly when it matches the received MAC and raises
the response-MAC-mismatch error otherwise; when the status is an error,
no verification happens and the response is returned as-is.  In both
cases the counter advances by one. -/
theorem mac_mode_response_verification (p : EncryptionParams) (c command : Nat)
    (header : List Nat) (data : Option (List Nat)) (response : List Nat)
    (hc : c + 1 < 65536) (hlen : 2 ≤ response.length) :
    (RespStatus.isOk ⟨response.getD (response.length - 2) 0,
        response.getD (response.length - 1) 0⟩ = true →
     2 < response.length →
     sendWithMac ⟨c, some p⟩ command header data (.ok response) =
       (if reduceMac (cmac p.sessionMacKey
            (response.getD (response.length - 1) 0 :: (c + 1) % 256 :: (c + 1) / 256 ::
              (p.TI ++ (response.take (response.length - 2)).take
                ((response.take (response.length - 2)).length - 8)))) =
          (response.take (response.length - 2)).drop
            ((response.take (response.length - 2)).length - 8)
        then .ok ⟨⟨response.getD (response.length - 2) 0,
            response.getD (response.length - 1) 0⟩,
          some ((response.take (response.length - 2)).take
            ((response.take (response.length - 2)).length - 8))⟩
        else .error responseMacMismatchMsg,
        ⟨c + 1, some p⟩)) ∧
    (RespStatus.isOk ⟨response.getD (response.length - 2) 0,
        response.getD (response.length - 1) 0⟩ = false →
     sendWithMac ⟨c, some p⟩ command header data (.ok response) =
       (.ok ⟨⟨response.getD (response.length - 2) 0,
           response.getD (response.length - 1) 0⟩,
         if 2 < response.length then some (response.take (response.length - 2)) else none⟩,
        ⟨c + 1, some p⟩)) := by
  have hniso : ¬ response.length < 2 := by omega
  have hn16 : ¬ 65536 ≤ c := by omega
  have hn16b : ¬ 65536 ≤ c + 1 := by omega
  have hiso : sendIsoCommand (.ok response) =
      .ok ⟨⟨response.getD (response.length - 2) 0, response.getD (response.length - 1) 0⟩,
        if 2 < response.length then some (response.take (response.length - 2)) else none⟩ := by
    simp only [sendIsoCommand]
    rw [if_neg hniso]
  constructor
  · intro hok hlen2
    simp only [sendWithMac, hiso, if_neg hn16, if_pos hlen2]
    simp only [CommandResponse.isError, hok, Bool.not_true, Bool.false_eq_true,
      if_false]
    simp only [macInput, if_neg hn16b]
    simp only [Nat.mod_eq_of_lt (show (c + 1) / 256 < 256 by omega)]
    split
    next h => rfl
    next h => rw [if_pos (of_not_not h)]
  · intro herr
    simp only [sendWithMac, hiso, if_neg hn16]
    simp only [CommandResponse.isError, herr, Bool.not_false, if_true]

/-- Witness for C1: at counter 0 with a concrete session, a response
`[0x91, 0x1e]` carries an error status, so the dispatcher hands it back
unverified while the counter advances to 1. -/
theorem mac_mode_response_verification_witness :
    sendWithMac ⟨0, some ⟨[1, 2, 3, 4], List.replicate 16 0, List.replicate 16 0⟩⟩
        0x71 [] none (.ok [0x91, 0x1e]) =
      (.ok ⟨⟨0x91, 0x1e⟩, none⟩,
        ⟨1, some ⟨[1, 2, 3, 4], List.replicate 16 0, List.replicate 16 0⟩⟩) := by
  have h := mac_mode_response_verification
    ⟨[1, 2, 3, 4], List.replicate 16 0, List.replicate 16 0⟩ 0 0x71 [] none
    [0x91, 0x1e] (by decide) (by decide)
  exact (h.2 (by decide)).trans (by decide)

/-- **C7 (counterexample).** The serializer and parser do not mirror each
other: with `metaRead = 0` the serializer records the presence of
`uidOffset` in the SDM option bits but never writes its bytes, and the
parser hands back `uidOffset = none`; the round trip silently drops the
field instead of reproducing it (or failing). -/
theorem fileSettings_roundtrip_cex :
    serializeForChangeFileSettings
        ⟨some ⟨some 1, none, some 0, none, none, none, none, ⟨0, 15, 14⟩⟩,
          .plain, ⟨0, 0, 0, 0⟩⟩ ⟨256, 14, 6, 0⟩ =
      .ok [64, 0, 0, 129, 254, 15, 0, 0, 0] ∧
    parseFromGetFileSettings
        (0 :: ([64, 0, 0, 129, 254, 15, 0, 0, 0].take 3) ++ u24le 256 ++
          ([64, 0, 0, 129, 254, 15, 0, 0, 0].drop 3)) =
      .ok ⟨0, ⟨0, 0, 0, 0⟩, 256, some .plain,
        some ⟨none, none, some 0, none, none, none, none, ⟨0, 15, 14⟩⟩⟩ ∧
    (some (⟨none, none, some 0, none, none, none, none, ⟨0, 15, 14⟩⟩ : SdmOptionsV) ≠
      some ⟨some 1, none, some 0, none, none, none, none, ⟨0, 15, 14⟩⟩) :=
  ⟨by decide, by decide, by decide⟩

theorem pLE_cons2 (a b : Nat) (rest : List Nat) :
    pLE 2 (a :: b :: rest) = .ok (a + 256 * b, rest) := by
  simp [pLE, leNat]

theorem pLE_cons3 (a b c : Nat) (rest : List Nat) :
    pLE 3 (a :: b :: c :: rest) = .ok (a + 256 * (b + 256 * c), rest) := by
  simp [pLE, leNat]

theorem pLE3_u24 (v : Nat) (rest : List Nat) (h : v < 16777216) :
    pLE 3 (u24le v ++ rest) = .ok (v, rest) := by
  simp only [u24le, List.cons_append, List.nil_append, pLE_cons3,
    Except.ok.injEq, Prod.mk.injEq]
  exact ⟨by omega, trivial⟩

theorem nibble_or : ∀ a < 16, ∀ b < 16, ((a <<< 4) ||| b) = 16 * a + b := by decide

theorem and15_eq_mod (x : Nat) : x &&& 15 = x % 16 := by
  have h := Nat.and_pow_two_sub_one_eq_mod x 4
  norm_num at h
  exact h

theorem nibbleExtract (a b c d : Nat) (ha : a < 16) (hb : b < 16)
    (hc : c < 16) (hd : d < 16) :
    (((16 * c + d) + 256 * (16 * a + b)) >>> 12) &&& 15 = a ∧
    (((16 * c + d) + 256 * (16 * a + b)) >>> 8) &&& 15 = b ∧
    (((16 * c + d) + 256 * (16 * a + b)) >>> 4) &&& 15 = c ∧
    ((16 * c + d) + 256 * (16 * a + b)) &&& 15 = d := by
  simp only [and15_eq_mod, Nat.shiftRight_eq_div_pow]
  norm_num
  omega

theorem parseSdmMeta_other (mr : Nat) (hmr : mr ≠ 14) (mu mrc : Bool) (r : List Nat) :
    parseSdmMeta mr mu mrc r = .ok (none, none, r) := by
  simp only [parseSdmMeta]
  rw [if_neg hmr]

theorem parseSdmMeta_nn (r : List Nat) :
    parseSdmMeta 14 false false r = .ok (none, none, r) := rfl

theorem parseSdmMeta_sn (u : Nat) (rest : List Nat) (hu : u < 16777216) :
    parseSdmMeta 14 true false (u24le u ++ rest) = .ok (some u, none, rest) := by
  simp only [parseSdmMeta, if_pos rfl, if_true, Bool.false_eq_true, if_false,
    bind, Except.bind, Except.map]
  rw [pLE3_u24 u rest hu]

theorem parseSdmMeta_ns (v : Nat) (rest : List Nat) (hv : v < 16777216) :
    parseSdmMeta 14 false true (u24le v ++ rest) = .ok (none, some v, rest) := by
  simp only [parseSdmMeta, if_pos rfl, if_true, Bool.false_eq_true, if_false,
    bind, Except.bind, Except.map]
  rw [pLE3_u24 v rest hv]

theorem parseSdmMeta_ss (u v : Nat) (rest : List Nat)
    (hu : u < 16777216) (hv : v < 16777216) :
    parseSdmMeta 14 true true (u24le u ++ (u24le v ++ rest)) =
      .ok (some u, some v, rest) := by
  simp only [parseSdmMeta, if_pos rfl, if_true, bind, Except.bind, Except.map]
  rw [pLE3_u24 u _ hu]
  dsimp only
  rw [pLE3_u24 v rest hv]

theorem parseSdmFile_f15 (e l : Bool) (r : List Nat) :
    parseSdmFile 15 e l r = .ok (none, none, none, none, r) := by
  simp only [parseSdmFile]
  rw [if_neg (by decide)]

theorem parseSdmFile_nn (fr : Nat) (hfr : fr ≠ 15) (mio mo : Nat) (rest : List Nat)
    (hmio : mio < 16777216) (hmo : mo < 16777216) :
    parseSdmFile fr false false (u24le mio ++ (u24le mo ++ rest)) =
      .ok (some mio, none, some mo, none, rest) := by
  simp only [parseSdmFile, if_pos hfr, Bool.false_eq_true, if_false,
    bind, Except.bind, Except.map]
  rw [pLE3_u24 mio _ hmio]
  dsimp only
  rw [pLE3_u24 mo rest hmo]

theorem parseSdmFile_sn (fr : Nat) (hfr : fr ≠ 15) (mio eo el mo : Nat)
    (rest : List Nat) (hmio : mio < 16777216) (heo : eo < 16777216)
    (hel : el < 16777216) (hmo : mo < 16777216) :
    parseSdmFile fr true false
        (u24le mio ++ (u24le eo ++ (u24le el ++ (u24le mo ++ rest)))) =
      .ok (some mio, some ⟨eo, el⟩, some mo, none, rest) := by
  simp only [parseSdmFile, if_pos hfr, Bool.false_eq_true, if_false, if_true,
    bind, Except.bind, Except.map]
  rw [pLE3_u24 mio _ hmio]
  dsimp only
  rw [pLE3_u24 eo _ heo]
  dsimp only
  rw [pLE3_u24 el _ hel]
  dsimp only
  rw [pLE3_u24 mo rest hmo]

theorem parseSdmFile_ns (fr : Nat) (hfr : fr ≠ 15) (mio mo lim : Nat)
    (rest : List Nat) (hmio : mio < 16777216) (hmo : mo < 16777216)
    (hlim : lim < 16777216) :
    parseSdmFile fr false true (u24le mio ++ (u24le mo ++ (u24le lim ++ rest))) =
      .ok (some mio, none, some mo, some lim, rest) := by
  simp only [parseSdmFile, if_pos hfr, Bool.false_eq_true, if_false, if_true,
    bind, Except.bind, Except.map]
  rw [pLE3_u24 mio _ hmio]
  dsimp only
  rw [pLE3_u24 mo _ hmo]
  dsimp only
  rw [pLE3_u24 lim rest hlim]

theorem parseSdmFile_ss (fr : Nat) (hfr : fr ≠ 15) (mio eo el mo lim : Nat)
    (rest : List Nat) (hmio : mio < 16777216) (heo : eo < 16777216)
    (hel : el < 16777216) (hmo : mo < 16777216) (hlim : lim < 16777216) :
    parseSdmFile fr true true
        (u24le mio ++ (u24le eo ++ (u24le el ++ (u24le mo ++ (u24le lim ++ rest))))) =
      .ok (some mio, some ⟨eo, el⟩, some mo, some lim, rest) := by
  simp only [parseSdmFile, if_pos hfr, if_true, bind, Except.bind, Except.map]
  rw [pLE3_u24 mio _ hmio]
  dsimp only
  rw [pLE3_u24 eo _ heo]
  dsimp only
  rw [pLE3_u24 el _ hel]
  dsimp only
  rw [pLE3_u24 mo _ hmo]
  dsimp only
  rw [pLE3_u24 lim rest hlim]

theorem bind_ok {α β : Type} {x : Except String α} {f : α → Except String β} {b : β}
    (h : Except.bind x f = .ok b) : ∃ a, x = .ok a ∧ f a = .ok b := by
  cases x with
  | error e => exact Except.noConfusion h
  | ok a => exact ⟨a, rfl, h⟩

theorem w24_ok {v : Nat} {s : List Nat} (h : w24 v = .ok s) :
    v < 16777216 ∧ s = u24le v := by
  rw [w24] at h
  by_cases hv : v < 16777216
  · rw [if_pos hv] at h
    injection h with h
    exact ⟨hv, h.symm⟩
  · rw [if_neg hv] at h
    exact Except.noConfusion h

theorem or240 : ∀ b < 16, (240 ||| b) = 240 + b := by decide

theorem isoBits (a b c d : Bool) :
    (((((((if a = true then 128 else 0) ||| (if b = true then 64 else 0)) |||
      (if c = true then 32 else 0)) ||| (if d = true then 16 else 0)) ||| 1) &&&
        128 != 0) = a) ∧
    (((((((if a = true then 128 else 0) ||| (if b = true then 64 else 0)) |||
      (if c = true then 32 else 0)) ||| (if d = true then 16 else 0)) ||| 1) &&&
        64 != 0) = b) ∧
    (((((((if a = true then 128 else 0) ||| (if b = true then 64 else 0)) |||
      (if c = true then 32 else 0)) ||| (if d = true then 16 else 0)) ||| 1) &&&
        32 != 0) = c) ∧
    (((((((if a = true then 128 else 0) ||| (if b = true then 64 else 0)) |||
      (if c = true then 32 else 0)) ||| (if d = true then 16 else 0)) ||| 1) &&&
        16 != 0) = d) ∧
    ((((((if a = true then 128 else 0) ||| (if b = true then 64 else 0)) |||
      (if c = true then 32 else 0)) ||| (if d = true then 16 else 0)) ||| 1) &&&
        1 = 1) := by
  cases a <;> cases b <;> cases c <;> cases d <;> decide

theorem sdmSection_roundtrip (so : SdmOptionsV) (tp : TagParamsV) (seg rest : List Nat)
    (hser : serializeSdmSection so tp = .ok seg)
    (hfr : so.accessRights.fileRead < 16)
    (hcr : so.accessRights.counterRetrieval < 16)
    (hmr : so.accessRights.metaRead ≤ 4 ∨ so.accessRights.metaRead = 14 ∨
      so.accessRights.metaRead = 15)
    (hpic : so.accessRights.metaRead = 14 → so.piccDataOffset = none)
    (huid : so.accessRights.metaRead ≠ 14 →
      so.uidOffset = none ∧ so.readCounterOffset = none)
    (hf15 : so.accessRights.fileRead = 15 →
      so.macInputOffset = none ∧ so.macOffset = none ∧
      so.encryptedFileData = none ∧ so.readCounterLimit = none) :
    parseSdmSection (seg ++ rest) = .ok (so, rest) := by
  obtain ⟨uo, rco, po, mio, mo, efd, lim, ⟨mr, fr, cr⟩⟩ := so
  dsimp only at hser hfr hcr hmr hpic huid hf15 ⊢
  have hmr16 : mr < 16 := by rcases hmr with h | h | h <;> omega
  simp only [serializeSdmSection, bind] at hser
  obtain ⟨arl, harl, hser⟩ := bind_ok hser
  obtain ⟨arh, harh, hser⟩ := bind_ok hser
  obtain ⟨metaSeg, hmetaS, hser⟩ := bind_ok hser
  obtain ⟨macSeg, hmacS, hser⟩ := bind_ok hser
  obtain ⟨limSeg, hlimS, hser⟩ := bind_ok hser
  simp only [pure, Except.pure, Except.ok.injEq] at hser
  subst hser
  rw [w8, or240 cr hcr, if_pos (show 240 + cr < 256 by omega)] at harl
  injection harl with harl
  subst harl
  rw [w8, nibble_or mr hmr16 fr hfr, if_pos (show 16 * mr + fr < 256 by omega)] at harh
  injection harh with harh
  subst harh
  have hMP : ∃ r8, parseSdmMeta mr uo.isSome rco.isSome
      (metaSeg ++ (macSeg ++ (limSeg ++ rest))) = .ok (uo, rco, r8) ∧
      (if mr ≤ 4 then (pLE 3 r8).map (fun p => (some p.1, p.2))
        else .ok (none, r8)) = .ok (po, macSeg ++ (limSeg ++ rest)) := by
    rcases hmr with hmr4 | hmr14 | hmr15
    · obtain ⟨huo, hrco⟩ := huid (by omega)
      subst huo
      subst hrco
      rw [serializeSdmMeta] at hmetaS
      dsimp only at hmetaS
      rw [if_neg (show ¬ mr = 14 by omega), if_pos (show mr ≠ 15 by omega)] at hmetaS
      rcases po with _ | p
      · exact Except.noConfusion hmetaS
      simp only [bind] at hmetaS
      obtain ⟨u1, hens, hmetaS⟩ := bind_ok hmetaS
      obtain ⟨hp24, hseg⟩ := w24_ok hmetaS
      subst hseg
      refine ⟨u24le p ++ (macSeg ++ (limSeg ++ rest)), ?_, ?_⟩
      · rw [parseSdmMeta_other mr (by omega)]
      · rw [if_pos hmr4, pLE3_u24 p _ hp24]
        rfl
    · subst hmr14
      have hpo := hpic rfl
      subst hpo
      rw [serializeSdmMeta] at hmetaS
      dsimp only at hmetaS
      rw [if_pos rfl] at hmetaS
      simp only [bind] at hmetaS
      rcases uo with _ | u
      · rcases rco with _ | v
        · simp only [Except.bind, Except.ok.injEq, List.nil_append] at hmetaS
          subst hmetaS
          refine ⟨macSeg ++ (limSeg ++ rest), ?_, ?_⟩
          · dsimp only [Option.isSome]
            simp only [List.nil_append]
            exact parseSdmMeta_nn _
          · rw [if_neg (by omega)]
        · dsimp only [Except.bind] at hmetaS
          obtain ⟨u1, hens, hmetaS⟩ := bind_ok hmetaS
          obtain ⟨rcSeg, hrc, hmetaS⟩ := bind_ok hmetaS
          obtain ⟨hv24, hseg⟩ := w24_ok hrc
          subst hseg
          simp only [Except.ok.injEq, List.nil_append] at hmetaS
          subst hmetaS
          refine ⟨macSeg ++ (limSeg ++ rest), ?_, ?_⟩
          · dsimp only [Option.isSome]
            exact parseSdmMeta_ns v _ hv24
          · rw [if_neg (by omega)]
      · dsimp only [Except.bind] at hmetaS
        obtain ⟨u1, hens, hmetaS⟩ := bind_ok hmetaS
        obtain ⟨uidSeg, huS, hmetaS⟩ := bind_ok hmetaS
        obtain ⟨hu24, hseg⟩ := w24_ok huS
        subst hseg
        rcases rco with _ | v
        · dsimp only [Except.bind] at hmetaS
          simp only [Except.ok.injEq, List.append_nil] at hmetaS
          subst hmetaS
          refine ⟨macSeg ++ (limSeg ++ rest), ?_, ?_⟩
          · dsimp only [Option.isSome]
            exact parseSdmMeta_sn u _ hu24
          · rw [if_neg (by omega)]
        · dsimp only [Except.bind] at hmetaS
          obtain ⟨u2, hens2, hmetaS⟩ := bind_ok hmetaS
          obtain ⟨rcSeg, hrc, hmetaS⟩ := bind_ok hmetaS
          obtain ⟨hv24, hseg⟩ := w24_ok hrc
          subst hseg
          simp only [Except.ok.injEq] at hmetaS
          subst hmetaS
          refine ⟨macSeg ++ (limSeg ++ rest), ?_, ?_⟩
          · dsimp only [Option.isSome]
            simp only [List.append_assoc]
            exact parseSdmMeta_ss u v _ hu24 hv24
          · rw [if_neg (by omega)]
    · subst hmr15
      obtain ⟨huo, hrco⟩ := huid (by omega)
      subst huo
      subst hrco
      rw [serializeSdmMeta] at hmetaS
      dsimp only at hmetaS
      rw [if_neg (by decide), if_neg (by decide)] at hmetaS
      rcases po with _ | p
      · rw [if_neg (by simp)] at hmetaS
        injection hmetaS with hmetaS
        subst hmetaS
        refine ⟨macSeg ++ (limSeg ++ rest), ?_, ?_⟩
        · dsimp only [Option.isSome]
          simp only [List.nil_append]
          exact parseSdmMeta_other 15 (by decide) _ _ _
        · rw [if_neg (by omega)]
      · rw [if_pos (by simp)] at hmetaS
        exact Except.noConfusion hmetaS
  have hF : parseSdmFile fr efd.isSome lim.isSome (macSeg ++ (limSeg ++ rest)) =
      .ok (mio, efd, mo, lim, rest) := by
    rw [serializeSdmLimit] at hlimS
    by_cases hfr15 : fr = 15
    · obtain ⟨h1, h2, h3, h4⟩ := hf15 hfr15
      subst h1
      subst h2
      subst h3
      subst h4
      subst hfr15
      rw [serializeSdmMac] at hmacS
      dsimp only at hmacS
      rw [if_neg (by decide)] at hmacS
      injection hmacS with hmacS
      subst hmacS
      dsimp only at hlimS
      injection hlimS with hlimS
      subst hlimS
      dsimp only [Option.isSome]
      simp only [List.nil_append]
      exact parseSdmFile_f15 _ _ _
    · rw [serializeSdmMac] at hmacS
      dsimp only at hmacS
      rw [if_pos hfr15] at hmacS
      rcases mio with _ | miov
      · exact Except.noConfusion hmacS
      rcases mo with _ | mov
      · exact Except.noConfusion hmacS
      dsimp only at hmacS
      simp only [bind, Except.bind] at hmacS
      obtain ⟨u1, hens1, hmacS⟩ := bind_ok hmacS
      obtain ⟨mioSeg, hmioS, hmacS⟩ := bind_ok hmacS
      obtain ⟨hmio24, hseg1⟩ := w24_ok hmioS
      subst hseg1
      rcases efd with _ | efdv
      · dsimp only at hmacS
        obtain ⟨u2, hens2, hmacS⟩ := bind_ok hmacS
        obtain ⟨moSeg, hmoS, hmacS⟩ := bind_ok hmacS
        obtain ⟨hmo24, hseg2⟩ := w24_ok hmoS
        subst hseg2
        simp only [Except.ok.injEq, List.append_nil] at hmacS
        subst hmacS
        rcases lim with _ | l
        · dsimp only at hlimS
          injection hlimS with hlimS
          subst hlimS
          dsimp only [Option.isSome]
          simp only [List.append_nil, List.nil_append, List.append_assoc]
          exact parseSdmFile_nn fr hfr15 miov mov rest hmio24 hmo24
        · dsimp only at hlimS
          obtain ⟨hl24, hseg3⟩ := w24_ok hlimS
          subst hseg3
          dsimp only [Option.isSome]
          simp only [List.append_nil, List.nil_append, List.append_assoc]
          exact parseSdmFile_ns fr hfr15 miov mov l rest hmio24 hmo24 hl24
      · obtain ⟨eo, el⟩ := efdv
        dsimp only at hmacS
        obtain ⟨u3, hens3, hmacS⟩ := bind_ok hmacS
        obtain ⟨u4, hens4, hmacS⟩ := bind_ok hmacS
        by_cases h32 : el % 32 ≠ 0
        · rw [if_pos h32] at hmacS
          exact Except.noConfusion hmacS
        · rw [if_neg h32] at hmacS
          obtain ⟨offSeg, hoffS, hmacS⟩ := bind_ok hmacS
          obtain ⟨heo24, hseg4⟩ := w24_ok hoffS
          subst hseg4
          obtain ⟨lenSeg, hlenS, hmacS⟩ := bind_ok hmacS
          obtain ⟨hel24, hseg5⟩ := w24_ok hlenS
          subst hseg5
          obtain ⟨u5, hens5, hmacS⟩ := bind_ok hmacS
          obtain ⟨moSeg, hmoS, hmacS⟩ := bind_ok hmacS
          obtain ⟨hmo24, hseg6⟩ := w24_ok hmoS
          subst hseg6
          simp only [Except.ok.injEq] at hmacS
          subst hmacS
          rcases lim with _ | l
          · dsimp only at hlimS
            injection hlimS with hlimS
            subst hlimS
            dsimp only [Option.isSome]
            simp only [List.append_nil, List.nil_append, List.append_assoc]
            exact parseSdmFile_sn fr hfr15 miov eo el mov rest
              hmio24 heo24 hel24 hmo24
          · dsimp only at hlimS
            obtain ⟨hl24, hseg7⟩ := w24_ok hlimS
            subst hseg7
            dsimp only [Option.isSome]
            simp only [List.append_nil, List.nil_append, List.append_assoc]
            exact parseSdmFile_ss fr hfr15 miov eo el mov l rest
              hmio24 heo24 hel24 hmo24 hl24
  obtain ⟨r8, hM, hP⟩ := hMP
  have hbits := isoBits uo.isSome rco.isSome lim.isSome efd.isSome
  simp only [List.cons_append, List.nil_append, List.append_assoc]
  simp only [parseSdmSection, bind, Except.bind, pByte]
  rw [hbits.1, hbits.2.1, hbits.2.2.1, hbits.2.2.2.1,
    if_neg (not_not_intro hbits.2.2.2.2)]
  rw [pLE_cons2]
  dsimp only
  have hv12 : (((240 + cr) + 256 * (16 * mr + fr)) >>> 12) &&& 15 = mr := by
    rw [and15_eq_mod, Nat.shiftRight_eq_div_pow]
    norm_num
    omega
  have hv8 : (((240 + cr) + 256 * (16 * mr + fr)) >>> 8) &&& 15 = fr := by
    rw [and15_eq_mod, Nat.shiftRight_eq_div_pow]
    norm_num
    omega
  have hv0 : ((240 + cr) + 256 * (16 * mr + fr)) &&& 15 = cr := by
    rw [and15_eq_mod]
    omega
  rw [hv12, hv8, hv0]
  rw [hM]
  dsimp only
  by_cases hm4 : mr ≤ 4
  · rw [if_pos hm4]
    rw [if_pos hm4] at hP
    rw [hP]
    dsimp only
    rw [hF]
  · rw [if_neg hm4]
    rw [if_neg hm4] at hP
    injection hP with hP
    injection hP with hP1 hP2
    subst hP1
    subst hP2
    rw [hF]

theorem pLE3_u24m (v : Nat) (rest : List Nat) :
    pLE 3 (u24le v ++ rest) = .ok (v % 16777216, rest) := by
  simp only [u24le, List.cons_append, List.nil_append, pLE_cons3,
    Except.ok.injEq, Prod.mk.injEq]
  exact ⟨by omega, trivial⟩

theorem pLE3_u24n (v : Nat) : pLE 3 (u24le v) = .ok (v % 16777216, []) := by
  have h := pLE3_u24m v []
  rwa [List.append_nil] at h

/-- **C7 (amended).** The file-settings round trip holds once the silently
dropped configurations are ruled out: if the access nibbles are in range,
mirror offsets are absent unless `metaRead = 0xe`, `piccDataOffset` is
absent when `metaRead = 0xe`, and the MAC-section fields (including
`readCounterLimit`) are absent when `fileRead = 0xf`, then parsing the
GetFileSettings buffer built from the serializer output returns exactly
the serialized `commMode`, access rights and `sdmOptions`. -/
theorem fileSettings_roundtrip (fs : FileSettingsV) (tp : TagParamsV) (buf : List Nat)
    (hser : serializeForChangeFileSettings fs tp = .ok buf)
    (hrd : fs.access.read < 16) (hwr : fs.access.write < 16)
    (hrw : fs.access.readWrite < 16) (hch : fs.access.change < 16)
    (hso : ∀ so, fs.sdmOptions = some so →
      so.accessRights.fileRead < 16 ∧ so.accessRights.counterRetrieval < 16 ∧
      (so.accessRights.metaRead ≤ 4 ∨ so.accessRights.metaRead = 14 ∨
        so.accessRights.metaRead = 15) ∧
      (so.accessRights.metaRead = 14 → so.piccDataOffset = none) ∧
      (so.accessRights.metaRead ≠ 14 →
        so.uidOffset = none ∧ so.readCounterOffset = none) ∧
      (so.accessRights.fileRead = 15 →
        so.macInputOffset = none ∧ so.macOffset = none ∧
        so.encryptedFileData = none ∧ so.readCounterLimit = none)) :
    parseFromGetFileSettings (0 :: buf.take 3 ++ u24le tp.fileSize ++ buf.drop 3) =
      .ok ⟨0, ⟨fs.access.read, fs.access.write, fs.access.readWrite, fs.access.change⟩,
        tp.fileSize % 16777216, some fs.commMode, fs.sdmOptions⟩ := by
  obtain ⟨sdmo, mode, ⟨rd, wr, rw, ch⟩⟩ := fs
  dsimp only at hrd hwr hrw hch hso hser ⊢
  have hard : rd &&& 15 = rd := by rw [and15_eq_mod]; omega
  have hawr : wr &&& 15 = wr := by rw [and15_eq_mod]; omega
  have harw : rw &&& 15 = rw := by rw [and15_eq_mod]; omega
  have hach : ch &&& 15 = ch := by rw [and15_eq_mod]; omega
  have hx := nibbleExtract rd wr rw ch hrd hwr hrw hch
  have t3 : ∀ (a b c : Nat) (l : List Nat),
      List.take 3 (a :: b :: c :: l) = [a, b, c] := fun _ _ _ _ => rfl
  have d3 : ∀ (a b c : Nat) (l : List Nat),
      List.drop 3 (a :: b :: c :: l) = l := fun _ _ _ _ => rfl
  rcases sdmo with _ | so
  · simp only [serializeForChangeFileSettings, pure, Except.pure,
      Except.ok.injEq] at hser
    rw [← hser]
    simp only [List.cons_append, List.nil_append]
    rw [t3, d3]
    simp only [Option.isSome, Bool.false_eq_true, if_false, Nat.zero_or,
      Nat.shiftLeft_zero, hard, hawr, harw, hach]
    rw [nibble_or rw hrw ch hch, nibble_or rd hrd wr hwr]
    have hfo64 : ((commModes mode &&& 64 != 0) : Bool) = false := by
      cases mode <;> rfl
    have hfo3 : commModeLookup (commModes mode &&& 3) = some mode := by
      cases mode <;> rfl
    simp only [List.cons_append, List.nil_append, List.append_nil,
      List.append_assoc]
    simp only [parseFromGetFileSettings, bind, Except.bind, pByte]
    rw [if_neg (by decide : ¬ (0 : Nat) ≠ 0)]
    rw [pLE_cons2]
    dsimp only
    rw [hx.1, hx.2.1, hx.2.2.1, hx.2.2.2]
    rw [pLE3_u24n]
    dsimp only
    rw [hfo64, hfo3]
    rw [if_neg (by decide : ¬ (false = true))]
    rw [if_neg (by decide : ¬ ([] : List Nat) ≠ [])]
  · obtain ⟨hfr2, hcr2, hmr2, hpic2, huid2, hf152⟩ := hso so rfl
    simp only [serializeForChangeFileSettings, bind] at hser
    obtain ⟨sdmSeg, hsdm, hser⟩ := bind_ok hser
    simp only [pure, Except.pure, Except.ok.injEq] at hser
    rw [← hser]
    simp only [List.cons_append, List.nil_append]
    rw [t3, d3]
    simp only [Option.isSome, if_true, Nat.shiftLeft_zero, hard, hawr, harw, hach]
    rw [nibble_or rw hrw ch hch, nibble_or rd hrd wr hwr]
    have hfo64 : (((64 ||| commModes mode) &&& 64 != 0) : Bool) = true := by
      cases mode <;> rfl
    have hfo3 : commModeLookup ((64 ||| commModes mode) &&& 3) = some mode := by
      cases mode <;> rfl
    have hsec := sdmSection_roundtrip so tp sdmSeg [] hsdm hfr2 hcr2 hmr2
      hpic2 huid2 hf152
    rw [List.append_nil] at hsec
    simp only [List.cons_append, List.nil_append, List.append_assoc]
    simp only [parseFromGetFileSettings, bind, Except.bind, pByte]
    rw [if_neg (by decide : ¬ (0 : Nat) ≠ 0)]
    rw [pLE_cons2]
    dsimp only
    rw [hx.1, hx.2.1, hx.2.2.1, hx.2.2.2]
    rw [pLE3_u24m]
    dsimp only
    rw [hfo64, hfo3]
    rw [hsec]
    dsimp only
    rw [if_neg (by decide : ¬ ([] : List Nat) ≠ [])]
    rw [if_pos rfl]

/-- Witness for C7 (amended): a fully populated `metaRead = 0xe`
configuration round-trips concretely. -/
theorem fileSettings_roundtrip_witness :
    parseFromGetFileSettings
        (0 :: ([67, 52, 18, 225, 241, 224, 1, 0, 0, 2, 0, 0, 3, 0, 0, 100, 0, 0,
          5, 0, 0].take 3) ++ u24le 200 ++
          ([67, 52, 18, 225, 241, 224, 1, 0, 0, 2, 0, 0, 3, 0, 0, 100, 0, 0,
            5, 0, 0].drop 3)) =
      .ok ⟨0, ⟨1, 2, 3, 4⟩, 200, some .full,
        some ⟨some 1, some 2, none, some 3, some 100, none, some 5,
          ⟨14, 0, 1⟩⟩⟩ := by
  have h := fileSettings_roundtrip
    ⟨some ⟨some 1, some 2, none, some 3, some 100, none, some 5, ⟨14, 0, 1⟩⟩,
      .full, ⟨1, 2, 3, 4⟩⟩ ⟨200, 7, 3, 0⟩
    [67, 52, 18, 225, 241, 224, 1, 0, 0, 2, 0, 0, 3, 0, 0, 100, 0, 0, 5, 0, 0]
    (by decide) (by decide) (by decide) (by decide) (by decide)
    (by
      intro so hso
      cases hso
      decide)
  exact h.trans (by decide)

end NTag
